import Mathlib

/-!
Verification of the natural-language specification of `src/app.py`
(Instagram Reels script-generator Flask service) against a shallow
embedding of its pure logic in Lean.

Conventions of the embedding:
* Python strings are modelled as `List Char` (Lean `Char` is a Unicode
  scalar value, matching Python code points for all text in this file).
* The regexes of the source are small: each one is embedded as an
  explicit character scan whose backtracking behaviour coincides with
  the Python `re` engine on the pattern in question; comments at each
  definition justify the coincidence.
* Python `\s` and `str.strip()` whitespace is modelled by the ASCII
  whitespace class (space, tab, newline, carriage return, form feed,
  vertical tab); all text handled by the service and all literals of
  the source are within this class.
* Fallible calls are modelled with `Option`; the HTTP endpoint is
  modelled as a function from an oracle environment (outcomes of the
  external calls) to a response plus a trace of the external calls it
  performed, in source order.
-/

/-! ## Character classes (Python `\s`, `\d`, `[a-zA-Z0-9_-]`, ASCII case fold) -/

/-- ASCII case fold, as applied by `re.IGNORECASE` to the ASCII letters
appearing in the patterns of the source. -/
def lowerCh (c : Char) : Char :=
  if 'A' ≤ c ∧ c ≤ 'Z' then Char.ofNat (c.toNat + 32) else c

/-- Python regex `\s` (ASCII part) and `str.strip()` whitespace. -/
def isSpaceCh (c : Char) : Bool :=
  c = ' ' ∨ c = '\t' ∨ c = '\n' ∨ c = '\r' ∨ c = '\x0b' ∨ c = '\x0c'

/-- Python regex `\d` (ASCII part). -/
def isDigitCh (c : Char) : Bool :=
  '0' ≤ c ∧ c ≤ '9'

/-- The character class `[a-zA-Z0-9_-]` of `extract_video_id`. -/
def isIdCh (c : Char) : Bool :=
  ('a' ≤ c ∧ c ≤ 'z') ∨ ('A' ≤ c ∧ c ≤ 'Z') ∨ ('0' ≤ c ∧ c ≤ '9') ∨ c = '_' ∨ c = '-'

/-! ## `extract_video_id` (src/app.py lines 29-32)

```python
def extract_video_id(url):
    match = re.search(r'(?:v=|\/)([a-zA-Z0-9_-]{11})', url)
    return match.group(1) if match else None
```

`re.search` tries start positions left to right; at one position the
alternation tries `v=` then `/` (at most one can apply, the first
characters differ), then the fixed-width group `[a-zA-Z0-9_-]{11}`
either matches the next 11 characters or the position fails.  There is
no further backtracking for a fixed repetition count. -/

/-- Try the whole pattern at the current position: marker `v=` or `/`
(tried in that order; their first characters differ, so at most one
applies), then exactly 11 id characters, returning the captured group. -/
def idTryAt (cs : List Char) : Option (List Char) :=
  if cs.take 2 = ['v', '='] then
    if ((cs.drop 2).take 11).length = 11 ∧ ((cs.drop 2).take 11).all isIdCh then
      some ((cs.drop 2).take 11)
    else none
  else if cs.take 1 = ['/'] then
    if ((cs.drop 1).take 11).length = 11 ∧ ((cs.drop 1).take 11).all isIdCh then
      some ((cs.drop 1).take 11)
    else none
  else none

/-- Leftmost search of the pattern, one start position at a time. -/
def idSearch : List Char → Option (List Char)
  | [] => none
  | c :: cs =>
    match idTryAt (c :: cs) with
    | some t => some t
    | none => idSearch cs

/-- `extract_video_id` from src/app.py. -/
def extract_video_id (url : String) : Option String :=
  (idSearch url.data).map List.asString

/-! ## Machinery for case-insensitive literal matching

Used by the `parse_scripts` regexes (`re.IGNORECASE`). -/

/-- Match the literal `pat` case-insensitively at the head of `cs`,
returning the remainder on success. -/
def dropCI : List Char → List Char → Option (List Char)
  | [], cs => some cs
  | _ :: _, [] => none
  | p :: ps, c :: cs => if lowerCh c = lowerCh p then dropCI ps cs else none

theorem dropCI_nil (cs : List Char) : dropCI [] cs = some cs := rfl

theorem dropCI_cons_none {p : Char} {ps : List Char} {c : Char} {cs : List Char}
    (h : lowerCh c ≠ lowerCh p) : dropCI (p :: ps) (c :: cs) = none := by
  simp [dropCI, h]

theorem dropCI_cons_eq {p : Char} {ps : List Char} {c : Char} {cs : List Char}
    (h : lowerCh c = lowerCh p) : dropCI (p :: ps) (c :: cs) = dropCI ps cs := by
  simp [dropCI, h]

/-- Success of `dropCI` forces the window to case-fold-match `pat` and
the remainder to be the drop of the window. -/
theorem dropCI_some {pat : List Char} :
    ∀ {cs r : List Char}, dropCI pat cs = some r →
      pat.length ≤ cs.length ∧
      (∀ j (hj : j < pat.length) (hj' : j < cs.length), lowerCh cs[j] = lowerCh pat[j]) ∧
      r = cs.drop pat.length := by
  induction pat with
  | nil =>
    intro cs r h
    simp [dropCI] at h
    simp [h]
  | cons p ps ih =>
    intro cs r h
    cases cs with
    | nil => simp [dropCI] at h
    | cons c cs' =>
      by_cases hc : lowerCh c = lowerCh p
      · rw [dropCI_cons_eq hc] at h
        obtain ⟨h1, h2, h3⟩ := ih h
        refine ⟨by simpa using h1, ?_, by simpa using h3⟩
        intro j hj hj'
        cases j with
        | zero => simpa using hc
        | succ k =>
          have hk : k < ps.length := by simpa using hj
          have hk' : k < cs'.length := by simpa using hj'
          simpa using h2 k hk hk'
      · rw [dropCI_cons_none hc] at h
        exact absurd h (by simp)

/-- Counterpositive form: a case-fold mismatch inside the window kills
the match. -/
theorem dropCI_none_of_mismatch {pat cs : List Char} {j : Nat}
    (hj : j < pat.length) (hj' : j < cs.length)
    (hne : lowerCh cs[j] ≠ lowerCh pat[j]) : dropCI pat cs = none := by
  cases h : dropCI pat cs with
  | none => rfl
  | some r => exact absurd ((dropCI_some h).2.1 j hj hj') hne

/-- Too-short input kills the match. -/
theorem dropCI_none_of_short {pat cs : List Char}
    (h : cs.length < pat.length) : dropCI pat cs = none := by
  cases hd : dropCI pat cs with
  | none => rfl
  | some r => exact absurd (dropCI_some hd).1 (by omega)

/-- Whether a case-insensitive occurrence of `pat` starts anywhere in `cs`. -/
def hasCI (pat : List Char) : List Char → Bool
  | [] => (dropCI pat []).isSome
  | c :: cs => (dropCI pat (c :: cs)).isSome || hasCI pat cs

theorem hasCI_false_iff (pat : List Char) :
    ∀ cs : List Char, hasCI pat cs = false ↔ ∀ i, dropCI pat (cs.drop i) = none := by
  intro cs
  induction cs with
  | nil =>
    simp only [hasCI, List.drop_nil]
    constructor
    · intro h i
      cases hd : dropCI pat ([] : List Char) with
      | none => rfl
      | some r => rw [hd] at h; simp at h
    · intro h
      rw [h 0]; rfl
  | cons c cs' ih =>
    simp only [hasCI, Bool.or_eq_false_iff]
    constructor
    · rintro ⟨h1, h2⟩ i
      cases i with
      | zero =>
        simpa using (by cases hd : dropCI pat (c :: cs') with
          | none => rfl
          | some r => rw [hd] at h1; simp at h1)
      | succ k => simpa using (ih.mp h2) k
    · intro h
      constructor
      · have := h 0
        simp at this
        simp [this]
      · exact ih.mpr fun i => by simpa using h (i + 1)

/-- Converse of `dropCI_some`: a full case-fold match of the window
makes `dropCI` succeed. -/
theorem dropCI_of_matches {pat : List Char} : ∀ {cs : List Char},
    pat.length ≤ cs.length →
    (∀ j (hj : j < pat.length) (hj' : j < cs.length), lowerCh cs[j] = lowerCh pat[j]) →
    dropCI pat cs = some (cs.drop pat.length) := by
  induction pat with
  | nil => intro cs _ _; simp [dropCI]
  | cons p ps ih =>
    intro cs hlen hall
    cases cs with
    | nil => simp at hlen
    | cons c cs' =>
      have h0 : lowerCh c = lowerCh p := by simpa using hall 0 (by simp) (by simp)
      rw [dropCI_cons_eq h0]
      have hlen' : ps.length ≤ cs'.length := by simpa using hlen
      have := ih hlen'
        (fun j hj hj' => by simpa using hall (j+1) (by simpa using hj) (by simpa using hj'))
      simpa using this

/-! ## Regions free of a case-insensitive occurrence

`noOccIn pat xs ys` says: no case-insensitive match of `pat` starts at
any position inside `xs` when scanning the concatenation `xs ++ ys`
(the match may straddle into `ys`, which is why `ys` is part of the
statement).  The combinators below discharge such conditions for the
skeleton/parameter decomposition of generated script text. -/

def noOccIn (pat xs ys : List Char) : Prop :=
  ∀ i, i < xs.length → dropCI pat ((xs ++ ys).drop i) = none

theorem noOccIn_nil (pat ys : List Char) : noOccIn pat [] ys := by
  intro i hi; simp at hi

theorem noOccIn_append {pat as bs ys : List Char}
    (h1 : noOccIn pat as (bs ++ ys)) (h2 : noOccIn pat bs ys) :
    noOccIn pat (as ++ bs) ys := by
  intro i hi
  rw [List.append_assoc]
  rcases Nat.lt_or_ge i as.length with hlt | hge
  · exact h1 i hlt
  · obtain ⟨k, hk⟩ := Nat.exists_eq_add_of_le hge
    subst hk
    rw [List.drop_append]
    have hkb : k < bs.length := by
      rw [List.length_append] at hi; omega
    exact h2 k hkb

/-- Decidable inner-mismatch criterion: every start position inside `xs`
exhibits a case-fold mismatch against `pat` at an index still inside
`xs`.  For concrete `xs` this is discharged by `decide`. -/
def innerMismatchB (pat xs : List Char) : Bool :=
  (List.range xs.length).all fun i =>
    (List.range pat.length).any fun j =>
      decide (i + j < xs.length) &&
      decide (lowerCh (xs.getD (i + j) ' ') ≠ lowerCh (pat.getD j ' '))

theorem noOccIn_inner {pat xs : List Char} (h : innerMismatchB pat xs = true)
    (ys : List Char) : noOccIn pat xs ys := by
  intro i hi
  have hiM := (List.all_eq_true.mp h) i (List.mem_range.mpr hi)
  obtain ⟨j, hjmem, hj⟩ := List.any_eq_true.mp hiM
  have hjlt : j < pat.length := List.mem_range.mp hjmem
  obtain ⟨hx, hne⟩ := by
    have := hj
    rw [Bool.and_eq_true, decide_eq_true_iff, decide_eq_true_iff] at this
    exact this
  have hlen : i + j < (xs ++ ys).length := by
    rw [List.length_append]; omega
  have hdlen : j < ((xs ++ ys).drop i).length := by
    rw [List.length_drop, List.length_append]; omega
  apply dropCI_none_of_mismatch (j := j) hjlt hdlen
  have e1 : getElem ((xs ++ ys).drop i) j hdlen = getElem (xs ++ ys) (i + j) hlen := by
    simp [List.getElem_drop]
  have e2 : getElem (xs ++ ys) (i + j) hlen = getElem xs (i + j) hx := by
    rw [List.getElem_append]
    simp [hx]
  have e3 : xs.getD (i + j) ' ' = getElem xs (i + j) hx := List.getD_eq_getElem xs ' ' hx
  have e4 : pat.getD j ' ' = getElem pat j hjlt := List.getD_eq_getElem pat ' ' hjlt
  rw [e1, e2]
  rw [e3, e4] at hne
  exact hne

/-- Positions where already the first pattern character cannot match. -/
theorem noOccIn_headMismatch {p : Char} {ps xs ys : List Char}
    (h : ∀ c ∈ xs, lowerCh c ≠ lowerCh p) : noOccIn (p :: ps) xs ys := by
  intro i hi
  have hlen : i < (xs ++ ys).length := by
    rw [List.length_append]; omega
  have hdlen : 0 < ((xs ++ ys).drop i).length := by
    rw [List.length_drop, List.length_append]; omega
  apply dropCI_none_of_mismatch (j := 0) (by simp) hdlen
  have e1 : getElem ((xs ++ ys).drop i) 0 hdlen = getElem (xs ++ ys) (i + 0) (by omega) := by
    simp [List.getElem_drop]
  have e2 : getElem (xs ++ ys) (i + 0) (by omega) = getElem xs i hi := by
    have : i + 0 = i := by omega
    simp only [this]
    rw [List.getElem_append]
    simp [hi]
  rw [e1, e2]
  simpa using h (getElem xs i hi) (List.getElem_mem hi)

/-- The sandwich lemma: `xs` is followed in the text by a newline; if
no character of `pat` case-folds to a newline and `pat` does not occur
inside `xs` itself, then no occurrence of `pat` starts inside `xs` — a
straddling occurrence would have to match the newline. -/
theorem noOccIn_sandwich {pat xs ys : List Char}
    (hnl : ∀ c ∈ pat, lowerCh c ≠ '\n')
    (hxs : hasCI pat xs = false) : noOccIn pat xs ('\n' :: ys) := by
  intro i hi
  cases hd : dropCI pat ((xs ++ '\n' :: ys).drop i) with
  | none => rfl
  | some r =>
    exfalso
    obtain ⟨hlen, hmatch, _⟩ := dropCI_some hd
    have hlenfull : (xs ++ '\n' :: ys).length = xs.length + 1 + ys.length := by
      rw [List.length_append]; simp only [List.length_cons]; omega
    rcases Nat.lt_or_ge (i + pat.length) (xs.length + 1) with hfit | hstraddle
    · -- the occurrence fits inside xs: contradicts hasCI pat xs = false
      have hnone : dropCI pat (xs.drop i) = none := (hasCI_false_iff pat xs).mp hxs i
      have hlen2 : pat.length ≤ (xs.drop i).length := by
        rw [List.length_drop]; omega
      have hall : ∀ j (hj : j < pat.length) (hj' : j < (xs.drop i).length),
          lowerCh (xs.drop i)[j] = lowerCh pat[j] := by
        intro j hj hj'
        have hidx : i + j < xs.length := by omega
        have hj2 : j < ((xs ++ '\n' :: ys).drop i).length := by
          rw [List.length_drop, hlenfull]; omega
        have e0 := hmatch j hj hj2
        have e1 : getElem ((xs ++ '\n' :: ys).drop i) j hj2 =
            getElem (xs ++ '\n' :: ys) (i + j) (by rw [hlenfull]; omega) := by
          simp [List.getElem_drop]
        have e2 : getElem (xs ++ '\n' :: ys) (i + j) (by rw [hlenfull]; omega) = getElem xs (i + j) hidx := by
          rw [List.getElem_append]
          simp [hidx]
        have e3 : getElem (xs.drop i) j hj' = getElem xs (i + j) hidx := by
          simp [List.getElem_drop]
        rw [e3, ← e2, ← e1]
        exact e0
      rw [dropCI_of_matches hlen2 hall] at hnone
      exact absurd hnone (by simp)
    · -- the occurrence straddles the newline at index xs.length
      have hjlt : xs.length - i < pat.length := by omega
      have hj2 : xs.length - i < ((xs ++ '\n' :: ys).drop i).length := by
        rw [List.length_drop, hlenfull]; omega
      have e0 := hmatch (xs.length - i) hjlt hj2
      have hix : i + (xs.length - i) = xs.length := by omega
      have e1 : getElem ((xs ++ '\n' :: ys).drop i) (xs.length - i) hj2 =
          getElem (xs ++ '\n' :: ys) (i + (xs.length - i)) (by rw [hlenfull]; omega) := by
        simp [List.getElem_drop]
      have e2 : getElem (xs ++ '\n' :: ys) (i + (xs.length - i)) (by rw [hlenfull]; omega) = '\n' := by
        have hgetnl : getElem (xs ++ '\n' :: ys) xs.length (by rw [hlenfull]; omega) = '\n' := by
          rw [List.getElem_append]
          simp
        calc getElem (xs ++ '\n' :: ys) (i + (xs.length - i)) (by rw [hlenfull]; omega)
            = getElem (xs ++ '\n' :: ys) xs.length (by rw [hlenfull]; omega) := by
              congr 1
          _ = '\n' := hgetnl
      rw [e1, e2] at e0
      exact hnl _ (List.getElem_mem hjlt) e0.symm

/-- Variant of the sandwich lemma with the newline as the last element
of the region itself. -/
theorem noOccIn_sandwich' {pat xs ys : List Char}
    (hnl : ∀ c ∈ pat, lowerCh c ≠ '\n')
    (hxs : hasCI pat xs = false) : noOccIn pat (xs ++ ['\n']) ys := by
  intro i hi
  have hi' : i ≤ xs.length := by
    rw [List.length_append] at hi; simp at hi; omega
  have e : (xs ++ ['\n']) ++ ys = xs ++ '\n' :: ys := by simp
  rw [e]
  rcases Nat.lt_or_ge i xs.length with hlt | hge
  · exact noOccIn_sandwich hnl hxs i hlt
  · -- i = xs.length: the window starts at the newline itself
    have hieq : i = xs.length := by omega
    subst hieq
    cases pat with
    | nil =>
      exfalso
      have : hasCI [] xs = true := by
        cases xs <;> simp [hasCI, dropCI]
      rw [this] at hxs
      exact absurd hxs (by simp)
    | cons p ps =>
      have hdrop : (xs ++ '\n' :: ys).drop xs.length = '\n' :: ys := by
        have := @List.drop_append _ xs ('\n' :: ys) 0
        simpa using this
      rw [hdrop]
      apply dropCI_cons_none
      intro hcon
      exact hnl p (by simp) (by rw [← hcon]; rfl)

/-! ## The split marker `SCRIPT\s+(\d+)` of `parse_scripts`
(src/app.py lines 415-416, `re.split(r'SCRIPT\s+(\d+)', raw_text,
flags=re.IGNORECASE)`)

At a given start position the engine matches `SCRIPT` case-insensitively,
then greedy `\s+`, then greedy `(\d+)`.  Backtracking cannot help here:
shortening the whitespace run would put a whitespace character where a
digit is required, and nothing follows the digit group.  So maximal-munch
is exact. -/

def scriptWord : List Char := ['s', 'c', 'r', 'i', 'p', 't']

/-- Match `SCRIPT\s+(\d+)` at the head; return (captured digits, rest). -/
def matchMarker (cs : List Char) : Option (List Char × List Char) :=
  match dropCI scriptWord cs with
  | none => none
  | some r1 =>
    let sp := r1.takeWhile isSpaceCh
    if sp.isEmpty then none
    else
      let r2 := r1.dropWhile isSpaceCh
      let ds := r2.takeWhile isDigitCh
      if ds.isEmpty then none
      else some (ds, r2.dropWhile isDigitCh)

theorem matchMarker_none_of_dropCI {cs : List Char}
    (h : dropCI scriptWord cs = none) : matchMarker cs = none := by
  simp [matchMarker, h]

theorem dropWhile_length_lt {p : Char → Bool} {l : List Char}
    (h : (l.takeWhile p).isEmpty = false) : (l.dropWhile p).length < l.length := by
  cases l with
  | nil => simp [List.takeWhile] at h
  | cons a as =>
    by_cases ha : p a
    · rw [List.dropWhile_cons_of_pos ha]
      have := (List.dropWhile_sublist (p := p) (l := as)).length_le
      simp only [List.length_cons]
      omega
    · rw [List.takeWhile_cons_of_neg ha] at h
      simp at h

theorem matchMarker_length {cs : List Char} {ds rest : List Char}
    (h : matchMarker cs = some (ds, rest)) : rest.length < cs.length := by
  unfold matchMarker at h
  cases hd : dropCI scriptWord cs with
  | none => rw [hd] at h; simp at h
  | some r1 =>
    rw [hd] at h
    simp only at h
    by_cases hsp : (r1.takeWhile isSpaceCh).isEmpty
    · simp [hsp] at h
    · simp only [hsp, if_false] at h
      by_cases hds : ((r1.dropWhile isSpaceCh).takeWhile isDigitCh).isEmpty
      · simp [hds] at h
      · simp only [hds, if_false, Option.some.injEq, Prod.mk.injEq] at h
        obtain ⟨_, hrest⟩ := h
        have h1 : r1.length ≤ cs.length - scriptWord.length := by
          obtain ⟨hle, _, hr⟩ := dropCI_some hd
          rw [hr, List.length_drop]
        have hle : scriptWord.length ≤ cs.length := (dropCI_some hd).1
        have h2 : (r1.dropWhile isSpaceCh).length < r1.length :=
          dropWhile_length_lt (by simpa using hsp)
        have h3 : ((r1.dropWhile isSpaceCh).dropWhile isDigitCh).length ≤
            (r1.dropWhile isSpaceCh).length := (List.dropWhile_sublist _).length_le
        simp only [scriptWord, List.length_cons, List.length_nil] at h1 hle
        omega

/-- The `re.split(r'SCRIPT\s+(\d+)', ...)` scan: returns the part
before the first match and the list of (captured group, following part)
pairs.  Python's `re.split` with one capture group returns the
alternating list `[part0, grp1, part1, grp2, part2, ...]`; this is the
same data. -/
def splitScan : List Char → List Char × List (List Char × List Char)
  | [] => ([], [])
  | c :: cs =>
    match h : matchMarker (c :: cs) with
    | some (ds, rest) =>
      let r := splitScan rest
      ([], (ds, r.1) :: r.2)
    | none =>
      let r := splitScan cs
      (c :: r.1, r.2)
termination_by cs => cs.length
decreasing_by
  · exact matchMarker_length h
  · simp

theorem splitScan_marker {cs ds rest : List Char}
    (h : matchMarker cs = some (ds, rest)) :
    splitScan cs = ([], (ds, (splitScan rest).1) :: (splitScan rest).2) := by
  cases cs with
  | nil =>
    exfalso
    unfold matchMarker at h
    rw [dropCI_none_of_short (by simp [scriptWord])] at h
    simp at h
  | cons c cs' =>
    rw [splitScan]
    split
    · next ds' rest' heq =>
      rw [heq] at h
      simp only [Option.some.injEq, Prod.mk.injEq] at h
      obtain ⟨h1, h2⟩ := h
      subst h1; subst h2
      rfl
    · next heq => rw [heq] at h; simp at h

theorem splitScan_skip {xs ys : List Char}
    (h : noOccIn scriptWord xs ys) :
    splitScan (xs ++ ys) = (xs ++ (splitScan ys).1, (splitScan ys).2) := by
  induction xs with
  | nil => simp
  | cons c xs' ih =>
    have h0 : dropCI scriptWord ((c :: xs' ++ ys)) = none := by
      have := h 0 (by simp)
      simpa using this
    have hm : matchMarker (c :: (xs' ++ ys)) = none := matchMarker_none_of_dropCI h0
    rw [List.cons_append, splitScan]
    split
    · next heq => rw [heq] at hm; simp at hm
    · next heq =>
      have hshift : noOccIn scriptWord xs' ys := by
        intro i hi
        have := h (i + 1) (by simp; omega)
        simpa using this
      rw [ih hshift]
      simp

theorem splitScan_nil : splitScan [] = ([], []) := by
  rw [splitScan]

theorem splitScan_all_none {cs : List Char}
    (h : ∀ i, i < cs.length → dropCI scriptWord (cs.drop i) = none) :
    splitScan cs = (cs, []) := by
  have h' : noOccIn scriptWord cs [] := by
    intro i hi
    have := h i hi
    simpa using this
  have := splitScan_skip h'
  simpa [splitScan_nil] using this

/-! ## Field extraction: `TITLE:\s*(.+?)(?:\n|THEME:)` and
`THEME:\s*(.+?)(?:\n|WORD|═)` with `re.IGNORECASE`
(src/app.py lines 423-424)

Engine semantics at one start position, after the literal label
matched: greedy `\s*` tries the longest whitespace run first and
backtracks downward; for each choice the lazy `(.+?)` grows from one
character (each a non-newline, `.`), succeeding as soon as the
terminator alternation matches.  `re.search` advances the start
position until some position admits a match. -/

/-- The lazy group: smallest `k ≥ 1` such that the first `k` characters
are non-newline and the terminator holds on the remainder; returns the
group. -/
def findLazyGroup (term : List Char → Bool) : List Char → Option (List Char)
  | [] => none
  | c :: cs =>
    if c = '\n' then none
    else if term cs then some [c]
    else (findLazyGroup term cs).map (fun g => c :: g)

/-- Backtracking of greedy `\s*`: try a run of `w` whitespace characters
first, then shorter runs. -/
def tryWsDown (term : List Char → Bool) (cs : List Char) : Nat → Option (List Char)
  | 0 =>
    match findLazyGroup term cs with
    | some g => some g
    | none => none
  | w + 1 =>
    match findLazyGroup term (cs.drop (w + 1)) with
    | some g => some g
    | none => tryWsDown term cs w

/-- Try `\s*(.+?)term` at the current position (just after the label). -/
def tryField (term : List Char → Bool) (cs : List Char) : Option (List Char) :=
  tryWsDown term cs (cs.takeWhile isSpaceCh).length

/-- `re.search` of `label\s*(.+?)term` (label matched case-insensitively):
leftmost start position whose full pattern matches. -/
def searchField (label : List Char) (term : List Char → Bool) : List Char → Option (List Char)
  | [] => none
  | c :: cs =>
    match dropCI label (c :: cs) with
    | some rest =>
      match tryField term rest with
      | some g => some g
      | none => searchField label term cs
    | none => searchField label term cs

def titleLabel : List Char := ['t', 'i', 't', 'l', 'e', ':']

def themeLabel : List Char := ['t', 'h', 'e', 'm', 'e', ':']

def wcLabel : List Char := ['w', 'o', 'r', 'd', ' ', 'c', 'o', 'u', 'n', 't', ':']

def wordWord : List Char := ['w', 'o', 'r', 'd']

/-- Terminator `(?:\n|THEME:)` of the TITLE pattern. -/
def titleTerm (cs : List Char) : Bool :=
  (cs.head? = some '\n') || (dropCI themeLabel cs).isSome

/-- Terminator `(?:\n|WORD|═)` of the THEME pattern. -/
def themeTerm (cs : List Char) : Bool :=
  (cs.head? = some '\n') || (dropCI wordWord cs).isSome || (cs.head? = some '═')

/-! ## Line removal: `re.sub(r'LABEL.*?\n', '', text, flags=re.IGNORECASE)`
(src/app.py lines 429-431)

`.` excludes newlines, so `LABEL.*?\n` matches the label followed by
everything up to and including the first newline after it (if no
newline follows, the position fails and the search moves on; a later
occurrence may still match).  `re.sub` removes non-overlapping matches
left to right, resuming after each removed match. -/

/-- Everything after the first newline, if any. -/
def dropToNewline : List Char → Option (List Char)
  | [] => none
  | c :: cs => if c = '\n' then some cs else dropToNewline cs

/-- Match `LABEL.*?\n` at the head. -/
def matchLabelLine (label cs : List Char) : Option (List Char) :=
  match dropCI label cs with
  | none => none
  | some r => dropToNewline r

theorem dropToNewline_length {cs rest : List Char}
    (h : dropToNewline cs = some rest) : rest.length < cs.length := by
  induction cs with
  | nil => simp [dropToNewline] at h
  | cons c cs' ih =>
    unfold dropToNewline at h
    by_cases hc : c = '\n'
    · rw [if_pos hc] at h
      simp only [Option.some.injEq] at h
      subst h
      simp
    · rw [if_neg hc] at h
      have := ih h
      simp only [List.length_cons]
      omega

theorem matchLabelLine_length {label cs rest : List Char}
    (h : matchLabelLine label cs = some rest) : rest.length < cs.length := by
  unfold matchLabelLine at h
  cases hd : dropCI label cs with
  | none => rw [hd] at h; simp at h
  | some r =>
    rw [hd] at h
    have h1 := dropToNewline_length h
    have h2 : r.length ≤ cs.length := by
      obtain ⟨_, _, hr⟩ := dropCI_some hd
      rw [hr, List.length_drop]
      omega
    omega

/-- The `re.sub(r'LABEL.*?\n', '', text)` scan. -/
def subLabelLine (label : List Char) : List Char → List Char
  | [] => []
  | c :: cs =>
    match h : matchLabelLine label (c :: cs) with
    | some rest => subLabelLine label rest
    | none => c :: subLabelLine label cs
termination_by cs => cs.length
decreasing_by
  · exact matchLabelLine_length h
  · simp

theorem subLabelLine_nil (label : List Char) : subLabelLine label [] = [] := by
  rw [subLabelLine]

/-- Skip a region with no occurrence of the label. -/
theorem subLabelLine_skip {label xs ys : List Char}
    (h : noOccIn label xs ys) :
    subLabelLine label (xs ++ ys) = xs ++ subLabelLine label ys := by
  induction xs with
  | nil => simp
  | cons c xs' ih =>
    have h0 : dropCI label (c :: xs' ++ ys) = none := by
      have := h 0 (by simp)
      simpa using this
    have hm : matchLabelLine label (c :: (xs' ++ ys)) = none := by
      unfold matchLabelLine
      rw [show (c :: (xs' ++ ys)) = (c :: xs' ++ ys) by simp, h0]
    rw [List.cons_append, subLabelLine]
    split
    · next heq => rw [heq] at hm; simp at hm
    · next heq =>
      have hshift : noOccIn label xs' ys := by
        intro i hi
        have := h (i + 1) (by simp; omega)
        simpa using this
      rw [ih hshift]
      simp

theorem subLabelLine_all_none {label cs : List Char}
    (h : noOccIn label cs []) : subLabelLine label cs = cs := by
  have := subLabelLine_skip h
  simpa [subLabelLine_nil] using this

/-- Removal step at a matching head position. -/
theorem subLabelLine_match {label cs rest : List Char}
    (h : matchLabelLine label cs = some rest) :
    subLabelLine label cs = subLabelLine label rest := by
  cases cs with
  | nil =>
    exfalso
    unfold matchLabelLine at h
    cases hd : dropCI label [] with
    | none => rw [hd] at h; simp at h
    | some r =>
      rw [hd] at h
      have : r = [] := by
        obtain ⟨_, _, hr⟩ := dropCI_some hd
        simpa using hr
      subst this
      simp [dropToNewline] at h
  | cons c cs' =>
    rw [subLabelLine]
    split
    · next heq =>
      rw [heq] at h
      simp only [Option.some.injEq] at h
      subst h
      rfl
    · next heq => rw [heq] at h; simp at h

/-! ## Python string helpers: `str.strip()`, `str.split()`, `int()` -/

/-- `str.strip()`. -/
def pyStrip (cs : List Char) : List Char :=
  ((cs.dropWhile isSpaceCh).reverse.dropWhile isSpaceCh).reverse

/-- The words of `str.split()` (no argument): maximal runs of
non-whitespace characters.  `acc` is the reversed current run. -/
def pyWordsAux : List Char → List Char → List (List Char)
  | acc, [] => if acc.isEmpty then [] else [acc.reverse]
  | acc, c :: cs =>
    if isSpaceCh c then
      if acc.isEmpty then pyWordsAux [] cs else acc.reverse :: pyWordsAux [] cs
    else pyWordsAux (c :: acc) cs

/-- `len(s.split())`. -/
def pyWordCount (cs : List Char) : Nat :=
  (pyWordsAux [] cs).length

/-- `int()` of a nonempty decimal digit string. -/
def natOfDigits (ds : List Char) : Nat :=
  ds.foldl (fun n c => n * 10 + (c.toNat - '0'.toNat)) 0

/-! ## `parse_scripts` (src/app.py lines 412-442)

```python
def parse_scripts(raw_text, num_scripts):
    scripts = []
    pattern = r'SCRIPT\s+(\d+)'
    parts = re.split(pattern, raw_text, flags=re.IGNORECASE)
    for i in range(1, len(parts), 2):
        if i+1 < len(parts):
            script_num = parts[i]
            content = parts[i+1].strip()
            title_match = re.search(r'TITLE:\s*(.+?)(?:\n|THEME:)', content, re.IGNORECASE)
            theme_match = re.search(r'THEME:\s*(.+?)(?:\n|WORD|═)', content, re.IGNORECASE)
            title = title_match.group(1).strip() if title_match else f"Breaking News {script_num}"
            theme = theme_match.group(1).strip() if theme_match else "General Updates"
            clean = re.sub(r'TITLE:.*?\n', '', content, flags=re.IGNORECASE)
            clean = re.sub(r'THEME:.*?\n', '', clean, flags=re.IGNORECASE)
            clean = re.sub(r'WORD COUNT:.*?\n', '', clean, flags=re.IGNORECASE)
            clean = re.sub(r'═+', '', clean).strip()
            scripts.append({'number': int(script_num), 'title': title, 'theme': theme,
                            'content': clean, 'word_count': len(clean.split())})
    return scripts[:num_scripts]
```

`re.split` with one capture group always yields an odd-length list
`[part0, grp1, part1, ..., grpk, partk]`, so the loop produces one
record per (group, following part) pair — exactly the pairs of
`splitScan`.  `re.sub(r'═+', '', s)` deletes every `═` (runs collapse
to the empty replacement), i.e. it is a character filter.  The
`scripts[:num_scripts]` slice equals `take` because the endpoint
validates `num_scripts` into `[1, 5]` before calling the parser. -/

structure ScriptRecord where
  number : Nat
  title : String
  theme : String
  content : String
  word_count : Nat
deriving Repr, DecidableEq

/-- The body of the `parse_scripts` loop for one (group, part) pair. -/
def mkRecord (ds part : List Char) : ScriptRecord :=
  let content := pyStrip part
  let title :=
    match searchField titleLabel titleTerm content with
    | some g => pyStrip g
    | none => "Breaking News ".data ++ ds
  let theme :=
    match searchField themeLabel themeTerm content with
    | some g => pyStrip g
    | none => "General Updates".data
  let clean0 := subLabelLine titleLabel content
  let clean1 := subLabelLine themeLabel clean0
  let clean2 := subLabelLine wcLabel clean1
  let clean := pyStrip (clean2.filter (fun c => c ≠ '═'))
  { number := natOfDigits ds
    title := title.asString
    theme := theme.asString
    content := clean.asString
    word_count := pyWordCount clean }

/-- `parse_scripts` from src/app.py. -/
def parse_scripts (raw_text : String) (num_scripts : Nat) : List ScriptRecord :=
  let r := splitScan raw_text.data
  (r.2.map (fun p => mkRecord p.1 p.2)).take num_scripts

/-! ## Claim C8: `extract_video_id` characterization -/

/-- The claim's pattern: `t` is an 11-character `[a-zA-Z0-9_-]` token
standing immediately after `v=` or `/` at the head of `cs`. -/
def idTokenAt (cs t : List Char) : Prop :=
  t.length = 11 ∧ t.all isIdCh = true ∧
  ((cs.take 2 = ['v', '='] ∧ (cs.drop 2).take 11 = t) ∨
   (cs.take 1 = ['/'] ∧ (cs.drop 1).take 11 = t))

instance (cs t : List Char) : Decidable (idTokenAt cs t) := by
  unfold idTokenAt
  infer_instance

theorem idTryAt_iff {cs t : List Char} : idTryAt cs = some t ↔ idTokenAt cs t := by
  unfold idTryAt idTokenAt
  by_cases h2 : cs.take 2 = ['v', '=']
  · rw [if_pos h2]
    by_cases hc : ((cs.drop 2).take 11).length = 11 ∧ ((cs.drop 2).take 11).all isIdCh
    · rw [if_pos hc]
      constructor
      · rintro h
        simp only [Option.some.injEq] at h
        subst h
        exact ⟨hc.1, hc.2, Or.inl ⟨h2, rfl⟩⟩
      · rintro ⟨hlen, hall, hor⟩
        rcases hor with ⟨_, ht⟩ | ⟨h1, _⟩
        · rw [ht]
        · exfalso
          have : cs.take 1 = ['v'] := by
            have := congrArg (List.take 1) h2
            simpa [List.take_take] using this
          rw [this] at h1
          simp at h1
    · rw [if_neg hc]
      constructor
      · intro h; simp at h
      · rintro ⟨hlen, hall, hor⟩
        rcases hor with ⟨_, ht⟩ | ⟨h1, _⟩
        · exact absurd ⟨by rw [ht]; exact hlen, by rw [ht]; exact hall⟩ hc
        · have : cs.take 1 = ['v'] := by
            have := congrArg (List.take 1) h2
            simpa [List.take_take] using this
          rw [this] at h1
          simp at h1
  · rw [if_neg h2]
    by_cases h1 : cs.take 1 = ['/']
    · rw [if_pos h1]
      by_cases hc : ((cs.drop 1).take 11).length = 11 ∧ ((cs.drop 1).take 11).all isIdCh
      · rw [if_pos hc]
        constructor
        · rintro h
          simp only [Option.some.injEq] at h
          subst h
          exact ⟨hc.1, hc.2, Or.inr ⟨h1, rfl⟩⟩
        · rintro ⟨hlen, hall, hor⟩
          rcases hor with ⟨hv, _⟩ | ⟨_, ht⟩
          · exact absurd hv h2
          · rw [ht]
      · rw [if_neg hc]
        constructor
        · intro h; simp at h
        · rintro ⟨hlen, hall, hor⟩
          rcases hor with ⟨hv, _⟩ | ⟨_, ht⟩
          · exact absurd hv h2
          · exact absurd ⟨by rw [ht]; exact hlen, by rw [ht]; exact hall⟩ hc
    · rw [if_neg h1]
      constructor
      · intro h; simp at h
      · rintro ⟨hlen, hall, hor⟩
        rcases hor with ⟨hv, _⟩ | ⟨hs, _⟩
        · exact absurd hv h2
        · exact absurd hs h1

/-- Decidable form of "some token stands at this position". -/
def tokHereB (cs : List Char) : Bool :=
  decide (idTokenAt cs ((cs.drop 2).take 11)) || decide (idTokenAt cs ((cs.drop 1).take 11))

theorem tokHereB_false {cs t : List Char} (h : tokHereB cs = false) : ¬ idTokenAt cs t := by
  intro ht
  have hb : decide (idTokenAt cs ((cs.drop 2).take 11)) = false ∧
      decide (idTokenAt cs ((cs.drop 1).take 11)) = false := by
    have := h
    unfold tokHereB at this
    rw [Bool.or_eq_false_iff] at this
    exact this
  obtain ⟨hlen, hall, hor⟩ := ht
  rcases hor with ⟨hv, hteq⟩ | ⟨hs, hteq⟩
  · have : idTokenAt cs ((cs.drop 2).take 11) := ⟨by rw [hteq]; exact hlen, by rw [hteq]; exact hall,
      Or.inl ⟨hv, rfl⟩⟩
    exact absurd this (by simpa using hb.1)
  · have : idTokenAt cs ((cs.drop 1).take 11) := ⟨by rw [hteq]; exact hlen, by rw [hteq]; exact hall,
      Or.inr ⟨hs, rfl⟩⟩
    exact absurd this (by simpa using hb.2)

theorem idSearch_none {cs : List Char}
    (h : ∀ i, tokHereB (cs.drop i) = false) : idSearch cs = none := by
  induction cs with
  | nil => rfl
  | cons c cs' ih =>
    rw [idSearch]
    have h0 : idTryAt (c :: cs') = none := by
      cases ht : idTryAt (c :: cs') with
      | none => rfl
      | some t =>
        exfalso
        exact tokHereB_false (by simpa using h 0) (idTryAt_iff.mp ht)
    rw [h0]
    exact ih fun i => by simpa using h (i + 1)

theorem idSearch_some {t : List Char} :
    ∀ (cs : List Char) (i : Nat), idTokenAt (cs.drop i) t →
      (∀ j, j < i → tokHereB (cs.drop j) = false) → idSearch cs = some t := by
  intro cs
  induction cs with
  | nil =>
    intro i hi _
    exfalso
    obtain ⟨hlen, _, hor⟩ := hi
    rcases hor with ⟨hv, _⟩ | ⟨hs, _⟩
    · simp at hv
    · simp at hs
  | cons c cs' ih =>
    intro i hi hmin
    cases i with
    | zero =>
      rw [idSearch]
      have : idTryAt (c :: cs') = some t := idTryAt_iff.mpr (by simpa using hi)
      rw [this]
    | succ k =>
      rw [idSearch]
      have h0 : idTryAt (c :: cs') = none := by
        cases ht : idTryAt (c :: cs') with
        | none => rfl
        | some t' =>
          exfalso
          exact tokHereB_false (by simpa using hmin 0 (by omega)) (idTryAt_iff.mp ht)
      rw [h0]
      exact ih k (by simpa using hi) fun j hj => by simpa using hmin (j + 1) (by omega)

/-- Claim C8: for every URL containing an 11-character `[a-zA-Z0-9_-]`
token immediately after `v=` or `/`, `extract_video_id` returns exactly
the token at the leftmost such position; for every string without the
pattern it returns `none`. -/
theorem claim_C8 (url : String) :
    ((∀ i, tokHereB (url.data.drop i) = false) → extract_video_id url = none) ∧
    (∀ i t, idTokenAt (url.data.drop i) t →
      (∀ j, j < i → tokHereB (url.data.drop j) = false) →
      extract_video_id url = some t.asString) := by
  constructor
  · intro h
    unfold extract_video_id
    rw [idSearch_none h]
    rfl
  · intro i t hi hmin
    unfold extract_video_id
    rw [idSearch_some url.data i hi hmin]
    rfl

/-- Witness for claim C8 at a concrete YouTube URL: the id
`abcdefghijk` after `v=` (position 26) is returned; every earlier
position (in particular each `/`) fails the pattern. -/
theorem claim_C8_witness :
    extract_video_id "https://youtube.com/watch?v=abcdefghijk" = some "abcdefghijk" := by
  have h := (claim_C8 "https://youtube.com/watch?v=abcdefghijk").2 26 "abcdefghijk".data
    (by decide) (by decide)
  simpa using h

/-! ## Claim C9: no `SCRIPT <n>` marker means no script records -/

/-- No position of `cs` starts a case-insensitive match of
`SCRIPT\s+(\d+)`. -/
def markerFreeB : List Char → Bool
  | [] => true
  | c :: cs => (matchMarker (c :: cs)).isNone && markerFreeB cs

theorem splitScan_of_markerFree {cs : List Char}
    (h : markerFreeB cs = true) : splitScan cs = (cs, []) := by
  induction cs with
  | nil => exact splitScan_nil
  | cons c cs' ih =>
    unfold markerFreeB at h
    rw [Bool.and_eq_true] at h
    obtain ⟨h1, h2⟩ := h
    rw [splitScan]
    split
    · next heq =>
      rw [heq] at h1
      simp at h1
    · next heq =>
      rw [ih h2]

/-- Claim C9: an input with no case-insensitive `SCRIPT <n>` marker
parses into zero script records (`re.split` returns the whole text as a
single part, the record loop never runs). -/
theorem claim_C9 (raw_text : String) (num_scripts : Nat)
    (h : markerFreeB raw_text.data = true) :
    parse_scripts raw_text num_scripts = [] := by
  unfold parse_scripts
  rw [splitScan_of_markerFree h]
  simp

/-- Witness for claim C9: the embedded failure string produced by
`create_instagram_scripts` on an exception (`f"Error: {str(e)}"`)
parses into zero records. -/
theorem claim_C9_witness :
    parse_scripts "Error: Connection timed out" 3 = [] :=
  claim_C9 "Error: Connection timed out" 3 (by decide)

/-! ## Claim C4: the credibility-score extraction
(src/app.py lines 644-645)

```python
cred_match = re.search(r'CREDIBILITY[:\s]*(\d+)%', verification)
credibility = cred_match.group(1) + '%' if cred_match else 'N/A'
```

No `re.IGNORECASE` here: the literal `CREDIBILITY` is matched
case-sensitively, and there is no `RELEVANCE` alternative.  At one
start position: the literal, then greedy `[:\s]*`, then greedy `(\d+)`
followed by `%`.  Backtracking cannot rescue a failed maximal-munch
attempt: shortening `[:\s]*` puts a colon/whitespace character where a
digit is required, and every proper prefix of a maximal digit run is
followed by a digit, never by `%`.  So maximal-munch is exact. -/

/-- Match the literal `pat` (case-sensitively) at the head. -/
def dropLit : List Char → List Char → Option (List Char)
  | [], cs => some cs
  | _ :: _, [] => none
  | p :: ps, c :: cs => if c = p then dropLit ps cs else none

def credWord : List Char := ['C', 'R', 'E', 'D', 'I', 'B', 'I', 'L', 'I', 'T', 'Y']

/-- Try `CREDIBILITY[:\s]*(\d+)%` at the current position; return the
captured digit run. -/
def credTryAt (cs : List Char) : Option (List Char) :=
  match dropLit credWord cs with
  | none => none
  | some r1 =>
    let r2 := r1.dropWhile (fun c => c = ':' || isSpaceCh c)
    let ds := r2.takeWhile isDigitCh
    if ds.isEmpty then none
    else if (r2.drop ds.length).head? = some '%' then some ds
    else none

/-- Leftmost search of the credibility pattern. -/
def credSearch : List Char → Option (List Char)
  | [] => none
  | c :: cs =>
    match credTryAt (c :: cs) with
    | some ds => some ds
    | none => credSearch cs

/-- The credibility extraction of `generate_scripts` (lines 644-645):
the captured digits suffixed with `%`, else `'N/A'`. -/
def extractCredibility (verification : String) : String :=
  match credSearch verification.data with
  | some ds => (ds ++ ['%']).asString
  | none => "N/A"

/-- Modelled from the claim's words (not from the source; used only to
exhibit the divergence between the claim and the code): scan for the
first integer run that is immediately followed by a literal `%` and
preceded (anywhere earlier in the text) by a `CREDIBILITY` or
`RELEVANCE` marker. -/
def specCredScan (seenMarker : Bool) : List Char → Option (List Char)
  | [] => none
  | c :: cs =>
    if seenMarker then
      let ds := (c :: cs).takeWhile isDigitCh
      if ds.isEmpty = false ∧ ((c :: cs).drop ds.length).head? = some '%' then some ds
      else specCredScan true cs
    else if (dropLit credWord (c :: cs)).isSome ∨
            (dropLit ['R','E','L','E','V','A','N','C','E'] (c :: cs)).isSome then
      specCredScan true cs
    else specCredScan false cs

/-- Modelled from the claim's words: the claimed credibility value. -/
def specCredibility (verification : String) : String :=
  match specCredScan false verification.data with
  | some ds => (ds ++ ['%']).asString
  | none => "N/A"

theorem dropLit_iff {pat : List Char} :
    ∀ {cs r : List Char}, dropLit pat cs = some r ↔ cs = pat ++ r := by
  induction pat with
  | nil => intro cs r; simp [dropLit]
  | cons p ps ih =>
    intro cs r
    cases cs with
    | nil => simp [dropLit]
    | cons c cs' =>
      by_cases hc : c = p
      · subst hc
        simp only [dropLit, if_pos rfl, List.cons_append, List.cons.injEq, true_and]
        exact ih
      · simp only [dropLit, if_neg hc, List.cons_append, List.cons.injEq]
        constructor
        · intro h; simp at h
        · rintro ⟨h, _⟩; exact absurd h hc

theorem dropWhile_append_all {p : Char → Bool} {l1 l2 : List Char}
    (h : l1.all p = true) : (l1 ++ l2).dropWhile p = l2.dropWhile p := by
  rw [List.dropWhile_append]
  have he : l1.dropWhile p = [] :=
    List.dropWhile_eq_nil_iff.mpr fun x hx => List.all_eq_true.mp h x hx
  simp [he]

theorem takeWhile_append_stop {p : Char → Bool} {l1 l2 : List Char} {c : Char}
    (h : l1.all p = true) (hc : p c = false) :
    (l1 ++ c :: l2).takeWhile p = l1 := by
  rw [List.takeWhile_append]
  have he : l1.takeWhile p = l1 :=
    List.takeWhile_eq_self_iff.mpr fun x hx => List.all_eq_true.mp h x hx
  rw [if_pos (by rw [he])]
  rw [List.takeWhile_cons_of_neg (by simp [hc])]
  simp

theorem drop_length_append {l1 l2 : List Char} : (l1 ++ l2).drop l1.length = l2 := by
  simpa using @List.drop_append _ l1 l2 0

/-- The amended pattern of claim C4, independent of the extractor: at
this position stand the case-sensitive literal `CREDIBILITY`, a run of
colons and whitespace, the digit run `ds`, and a literal `%`.  (The
decomposition is unique: the separator must be the maximal colon/space
run because `ds` starts with a digit, and `ds` must be the maximal
digit run because it is followed by `%`.) -/
def credPatAt (cs ds : List Char) : Prop :=
  ds ≠ [] ∧ ds.all isDigitCh = true ∧
  ∃ sep rest, sep.all (fun c => c = ':' || isSpaceCh c) = true ∧
    cs = credWord ++ sep ++ ds ++ '%' :: rest

theorem credTryAt_iff {cs ds : List Char} :
    credTryAt cs = some ds ↔ credPatAt cs ds := by
  constructor
  · intro h
    unfold credTryAt at h
    cases hd : dropLit credWord cs with
    | none => rw [hd] at h; simp at h
    | some r1 =>
      rw [hd] at h
      simp only at h
      by_cases hds : ((r1.dropWhile fun c => c = ':' || isSpaceCh c).takeWhile isDigitCh).isEmpty
      · rw [if_pos hds] at h; simp at h
      · rw [if_neg hds] at h
        set r2 := r1.dropWhile fun c => c = ':' || isSpaceCh c with hr2
        set dsc := r2.takeWhile isDigitCh with hdsc
        by_cases hpc : (r2.drop dsc.length).head? = some '%'
        · rw [if_pos hpc] at h
          simp only [Option.some.injEq] at h
          subst h
          have hcs : cs = credWord ++ r1 := dropLit_iff.mp hd
          have hr1 : r1 = r1.takeWhile (fun c => c = ':' || isSpaceCh c) ++ r2 := by
            rw [hr2, List.takeWhile_append_dropWhile]
          obtain ⟨t, ht⟩ := List.takeWhile_prefix (p := isDigitCh) (l := r2)
          have hr2split : r2 = dsc ++ r2.drop dsc.length := by
            conv_lhs => rw [← ht]
            congr 1
            rw [← ht, drop_length_append]
          refine ⟨by simpa using hds, List.all_eq_true.mpr fun x hx =>
            List.mem_takeWhile_imp (l := r2) (by rw [← hdsc]; exact hx), ?_⟩
          refine ⟨r1.takeWhile (fun c => c = ':' || isSpaceCh c), (r2.drop dsc.length).tail, ?_, ?_⟩
          · exact List.all_eq_true.mpr fun x hx => List.mem_takeWhile_imp (l := r1) hx
          · rw [hcs]
            conv_lhs => rw [hr1]
            have htl : r2.drop dsc.length = '%' :: (r2.drop dsc.length).tail := by
              cases hx : r2.drop dsc.length with
              | nil => rw [hx] at hpc; simp at hpc
              | cons a as =>
                rw [hx] at hpc
                simp only [List.head?_cons, Option.some.injEq] at hpc
                subst hpc
                simp
            conv_lhs => rw [hr2split, htl]
            simp
        · rw [if_neg hpc] at h; simp at h
  · rintro ⟨hne, hdig, sep, rest, hsep, hcs⟩
    unfold credTryAt
    have hd : dropLit credWord cs = some (sep ++ ds ++ '%' :: rest) := by
      rw [dropLit_iff, hcs]
      simp
    rw [hd]
    simp only
    have hds0 : ds ≠ [] := hne
    obtain ⟨d0, ds', rfl⟩ : ∃ d0 ds', ds = d0 :: ds' := by
      cases ds with
      | nil => exact absurd rfl hds0
      | cons a as => exact ⟨a, as, rfl⟩
    have hd0dig : isDigitCh d0 = true := by
      have := List.all_eq_true.mp hdig d0 (by simp)
      exact this
    have hd0 : (d0 = ':' || isSpaceCh d0) = false := by
      have h1 : d0 ≠ ':' := by
        intro hcon
        rw [hcon] at hd0dig
        simp [isDigitCh] at hd0dig
      have h2 : isSpaceCh d0 = false := by
        cases hsp : isSpaceCh d0 with
        | false => rfl
        | true =>
          exfalso
          unfold isSpaceCh at hsp
          unfold isDigitCh at hd0dig
          rcases (by simpa using hsp : d0 = ' ' ∨ d0 = '\t' ∨ d0 = '\n' ∨ d0 = '\r' ∨
            d0 = '\x0b' ∨ d0 = '\x0c') with h | h | h | h | h | h <;>
            (rw [h] at hd0dig; simp at hd0dig)
      simp [h1, h2]
    have hdrop : ((sep ++ (d0 :: ds') ++ '%' :: rest).dropWhile fun c => c = ':' || isSpaceCh c) =
        (d0 :: ds') ++ '%' :: rest := by
      rw [List.append_assoc, dropWhile_append_all hsep]
      rw [List.cons_append, List.dropWhile_cons_of_neg (by simp [hd0])]
    rw [hdrop]
    have htake : ((d0 :: ds') ++ '%' :: rest).takeWhile isDigitCh = d0 :: ds' :=
      takeWhile_append_stop hdig (by simp [isDigitCh])
    rw [htake]
    rw [if_neg (by simp)]
    rw [drop_length_append]
    simp

theorem credSearch_none {cs : List Char}
    (h : ∀ i ds, ¬ credPatAt (cs.drop i) ds) : credSearch cs = none := by
  induction cs with
  | nil => rfl
  | cons c cs' ih =>
    rw [credSearch]
    have h0 : credTryAt (c :: cs') = none := by
      cases ht : credTryAt (c :: cs') with
      | none => rfl
      | some ds => exact absurd (credTryAt_iff.mp ht) (by simpa using h 0 ds)
    rw [h0]
    exact ih fun i ds => by simpa using h (i + 1) ds

theorem credSearch_some {ds : List Char} :
    ∀ (cs : List Char) (i : Nat), credPatAt (cs.drop i) ds →
      (∀ j, j < i → ∀ ds', ¬ credPatAt (cs.drop j) ds') → credSearch cs = some ds := by
  intro cs
  induction cs with
  | nil =>
    intro i hi _
    exfalso
    obtain ⟨_, _, sep, rest, _, hcs⟩ := hi
    rw [List.drop_nil] at hcs
    have hl := congrArg List.length hcs
    simp [credWord] at hl
  | cons c cs' ih =>
    intro i hi hmin
    cases i with
    | zero =>
      rw [credSearch]
      rw [credTryAt_iff.mpr (by simpa using hi)]
    | succ k =>
      rw [credSearch]
      have h0 : credTryAt (c :: cs') = none := by
        cases ht : credTryAt (c :: cs') with
        | none => rfl
        | some ds' => exact absurd (credTryAt_iff.mp ht) (by simpa using hmin 0 (by omega) ds')
      rw [h0]
      exact ih k (by simpa using hi) fun j hj ds' => by simpa using hmin (j + 1) (by omega) ds'

/-- Counterexample to claim C4 as stated: the code matches only the
`CREDIBILITY` marker (case-sensitively, `re.search(r'CREDIBILITY[:\s]*(\d+)%', ...)`),
so for text whose score follows a `RELEVANCE` marker the claimed value
is the integer suffixed with `%` while the code reports `'N/A'`. -/
theorem claim_C4_counterexample :
    specCredibility "RELEVANCE: 85%" = "85%" ∧
    extractCredibility "RELEVANCE: 85%" = "N/A" ∧
    extractCredibility "RELEVANCE: 85%" ≠ specCredibility "RELEVANCE: 85%" := by
  refine ⟨by decide, by decide, by decide⟩

/-- Claim C4 (amended): the extractor returns, suffixed with `%`, the
digit run at the leftmost occurrence of: literal `CREDIBILITY`, a run
of colons/whitespace, an integer, then `%`; when no such occurrence
exists anywhere, it returns `'N/A'`. -/
theorem claim_C4_amended (v : String) :
    ((∀ i ds, ¬ credPatAt (v.data.drop i) ds) → extractCredibility v = "N/A") ∧
    (∀ i ds, credPatAt (v.data.drop i) ds →
      (∀ j, j < i → ∀ ds', ¬ credPatAt (v.data.drop j) ds') →
      extractCredibility v = (ds ++ ['%']).asString) := by
  constructor
  · intro h
    unfold extractCredibility
    rw [credSearch_none h]
  · intro i ds hi hmin
    unfold extractCredibility
    rw [credSearch_some v.data i hi hmin]

/-- Witness for the amended claim C4 at a concrete verification text:
the pattern stands at position 0 with separator `': '` and digits `85`. -/
theorem claim_C4_amended_witness :
    extractCredibility "CREDIBILITY: 85%" = "85%" := by
  have h := (claim_C4_amended "CREDIBILITY: 85%").2 0 ['8', '5']
    ⟨by decide, by decide, [':', ' '], [], by decide, by decide⟩
    (fun j hj ds' h' => absurd hj (by omega))
  simpa using h

/-! ## `get_summary` (src/app.py lines 35-47)

```python
def get_summary(text, max_sentences=8):
    sentences = [s.strip() for s in text.replace('!', '.').replace('?', '.').split('.')
                 if len(s.strip()) > 30]
    keywords = ['सुप्रीम', 'कोर्ट', 'मोदी', 'सरकार', 'बोले', 'कहा',
                'नए', 'नियम', 'बीजेपी', 'कांग्रेस', 'यूजीसी', 'पवार']
    scored = [(s, sum(1 for k in keywords if k in s)) for s in sentences[:60]]
    seen = set()
    top = []
    for s, score in sorted(scored, key=lambda x: (x[1], len(x[0])), reverse=True):
        if s not in seen and len(top) < max_sentences:
            top.append(s)
            seen.add(s)
    return top
```

`sorted(..., reverse=True)` is a stable descending sort by the key
`(score, len)`; `List.mergeSort` with a reflexive "comes-before" test
is also stable, and a stable sort's output is the unique key-descending
permutation that keeps key-equal elements in input order, so the two
agree.  The membership test `s not in seen` sees exactly the sentences
already appended (a Python `set` of strings), modelled by a list with
`contains`. -/

/-- Python `k in s` for strings: case-sensitive substring containment. -/
def hasSub (pat : List Char) : List Char → Bool
  | [] => (dropLit pat []).isSome
  | c :: cs => (dropLit pat (c :: cs)).isSome || hasSub pat cs

def newsKeywords : List (List Char) :=
  ["सुप्रीम".data, "कोर्ट".data, "मोदी".data, "सरकार".data, "बोले".data, "कहा".data,
   "नए".data, "नियम".data, "बीजेपी".data, "कांग्रेस".data, "यूजीसी".data, "पवार".data]

/-- `sum(1 for k in keywords if k in s)`: the number of keywords that
occur in `s`. -/
def kwCount (s : List Char) : Nat :=
  (newsKeywords.filter (fun k => hasSub k s)).length

/-- Python `str.split('.')`: split at every dot, keeping empty pieces. -/
def splitDot : List Char → List (List Char)
  | [] => [[]]
  | c :: cs =>
    match splitDot cs with
    | [] => [[]]
    | r :: rs => if c = '.' then [] :: r :: rs else (c :: r) :: rs

/-- Descending-by-(score, length) "comes-before" test: `a` may stay
before `b` iff `key a ≥lex key b` (equal keys keep input order, i.e.
the sort is stable like CPython's). -/
def sortLe (a b : List Char × Nat) : Bool :=
  decide (b.2 < a.2) || (decide (b.2 = a.2) && decide (b.1.length ≤ a.1.length))

/-- The `for s, score in ...` dedup/cap loop of `get_summary`. -/
def pickLoop (maxS : Nat) : List (List Char × Nat) → List (List Char) → List (List Char) →
    List (List Char)
  | [], _seen, top => top
  | (s, _) :: rest, seen, top =>
    if seen.contains s = false ∧ top.length < maxS then
      pickLoop maxS rest (seen ++ [s]) (top ++ [s])
    else pickLoop maxS rest seen top

/-- `get_summary` from src/app.py. -/
def get_summary (text : String) (max_sentences : Nat) : List String :=
  let replaced := text.data.map (fun c => if c = '!' then '.' else if c = '?' then '.' else c)
  let sentences := ((splitDot replaced).map pyStrip).filter (fun s => 30 < s.length)
  let scored := (sentences.take 60).map (fun s => (s, kwCount s))
  let ranked := scored.mergeSort sortLe
  (pickLoop max_sentences ranked [] []).map List.asString

theorem pickLoop_length (maxS : Nat) :
    ∀ (pairs : List (List Char × Nat)) (seen top : List (List Char)),
      top.length ≤ maxS → (pickLoop maxS pairs seen top).length ≤ maxS := by
  intro pairs
  induction pairs with
  | nil => intro seen top h; exact h
  | cons p rest ih =>
    intro seen top h
    obtain ⟨s, n⟩ := p
    rw [pickLoop]
    by_cases hc : seen.contains s = false ∧ top.length < maxS
    · rw [if_pos hc]
      exact ih _ _ (by simp; omega)
    · rw [if_neg hc]
      exact ih _ _ h

theorem pickLoop_nodup (maxS : Nat) :
    ∀ (pairs : List (List Char × Nat)) (seen top : List (List Char)),
      top.Nodup → (∀ x ∈ top, seen.contains x = true) →
      (pickLoop maxS pairs seen top).Nodup := by
  intro pairs
  induction pairs with
  | nil => intro seen top h _; exact h
  | cons p rest ih =>
    intro seen top h hsub
    obtain ⟨s, n⟩ := p
    rw [pickLoop]
    by_cases hc : seen.contains s = false ∧ top.length < maxS
    · rw [if_pos hc]
      apply ih
      · rw [List.nodup_append]
        refine ⟨h, by simp, ?_⟩
        intro x hx hxs
        have : x = s := by simpa using hxs
        subst this
        rw [hsub x hx] at hc
        exact absurd hc.1 (by simp)
      · intro x hx
        rcases (by simpa using hx : x ∈ top ∨ x = s) with hmem | rfl
        · have hmem' : x ∈ seen := by simpa using hsub x hmem
          simp [hmem']
        · simp
    · rw [if_neg hc]
      exact ih _ _ h hsub

theorem pickLoop_sublist (maxS : Nat) :
    ∀ (pairs : List (List Char × Nat)) (seen top : List (List Char)),
      ∃ extra, pickLoop maxS pairs seen top = top ++ extra ∧
        extra.Sublist (pairs.map Prod.fst) := by
  intro pairs
  induction pairs with
  | nil => intro seen top; exact ⟨[], by simp [pickLoop], by simp⟩
  | cons p rest ih =>
    intro seen top
    obtain ⟨s, n⟩ := p
    rw [pickLoop]
    by_cases hc : seen.contains s = false ∧ top.length < maxS
    · rw [if_pos hc]
      obtain ⟨extra, he, hs⟩ := ih (seen ++ [s]) (top ++ [s])
      exact ⟨s :: extra, by rw [he]; simp, by simpa using List.Sublist.cons₂ s hs⟩
    · rw [if_neg hc]
      obtain ⟨extra, he, hs⟩ := ih seen top
      exact ⟨extra, he, hs.trans (List.sublist_cons_self _ _)⟩

theorem sortLe_trans (a b c : List Char × Nat)
    (h1 : sortLe a b = true) (h2 : sortLe b c = true) : sortLe a c = true := by
  unfold sortLe at *
  simp only [Bool.or_eq_true, Bool.and_eq_true, decide_eq_true_iff] at *
  omega

theorem sortLe_total (a b : List Char × Nat) : (sortLe a b || sortLe b a) = true := by
  unfold sortLe
  simp only [Bool.or_eq_true, Bool.and_eq_true, decide_eq_true_iff]
  omega

/-- Claim C6: the fallback summarizer returns at most the requested
count, no duplicate sentence, and its output is ranked: a
keyword-richer sentence never stands after a keyword-poorer one, and
among equal scores a longer sentence never stands after a shorter one
(descending (score, length) order).  In particular every keyword-bearing
sentence in the output precedes every keyword-free one. -/
theorem claim_C6 (text : String) (maxS : Nat) :
    (get_summary text maxS).length ≤ maxS ∧
    (get_summary text maxS).Nodup ∧
    (get_summary text maxS).Pairwise
      (fun a b => kwCount b.data < kwCount a.data ∨
        (kwCount b.data = kwCount a.data ∧ b.data.length ≤ a.data.length)) := by
  unfold get_summary
  set replaced := text.data.map
    (fun c => if c = '!' then '.' else if c = '?' then '.' else c) with hrep
  set sentences := ((splitDot replaced).map pyStrip).filter (fun s => 30 < s.length) with hsen
  set scored := (sentences.take 60).map (fun s => (s, kwCount s)) with hsc
  set ranked := scored.mergeSort sortLe with hrk
  obtain ⟨extra, hpick, hsub⟩ := pickLoop_sublist maxS ranked [] []
  refine ⟨?_, ?_, ?_⟩
  · rw [List.length_map]
    exact pickLoop_length maxS ranked [] [] (by simp)
  · apply List.Nodup.map (fun x y => List.asString_inj.mp)
    exact pickLoop_nodup maxS ranked [] [] (by simp) (by simp)
  · rw [List.pairwise_map]
    have hsnd : ∀ p ∈ ranked, p.2 = kwCount p.1 := by
      intro p hp
      have : p ∈ scored := ((scored.mergeSort_perm sortLe).mem_iff).mp hp
      rw [hsc] at this
      obtain ⟨s, _, rfl⟩ := List.mem_map.mp this
      rfl
    have hsorted : ranked.Pairwise (fun a b => sortLe a b = true) :=
      List.sorted_mergeSort sortLe_trans sortLe_total scored
    have hranked : ranked.Pairwise
        (fun a b => kwCount b.1 < kwCount a.1 ∨
          (kwCount b.1 = kwCount a.1 ∧ b.1.length ≤ a.1.length)) := by
      apply List.Pairwise.imp_of_mem ?_ hsorted
      intro a b ha hb hab
      have h2a := hsnd a ha
      have h2b := hsnd b hb
      unfold sortLe at hab
      simp only [Bool.or_eq_true, Bool.and_eq_true, decide_eq_true_iff] at hab
      rw [h2a, h2b] at hab
      exact hab
    have hfst : (ranked.map Prod.fst).Pairwise
        (fun a b => kwCount b < kwCount a ∨
          (kwCount b = kwCount a ∧ b.length ≤ a.length)) := by
      rw [List.pairwise_map]
      exact hranked
    have hout : (pickLoop maxS ranked [] []).Pairwise
        (fun a b => kwCount b < kwCount a ∨
          (kwCount b = kwCount a ∧ b.length ≤ a.length)) := by
      rw [hpick]
      simp only [List.nil_append]
      exact List.Pairwise.sublist hsub hfst
    apply List.Pairwise.imp_of_mem ?_ hout
    intro a b _ _ hab
    simpa using hab

/-! ## `scrape_news_headlines` (src/app.py lines 165-185)

```python
def scrape_news_headlines(url, source_name):
    try:
        headers = {...}
        response = requests.get(url, headers=headers, timeout=10)
        response.raise_for_status()
        soup = BeautifulSoup(response.content, 'html.parser')
        headlines = []
        for selector in ['h1', 'h2', 'h3', '.title', '.headline', 'a']:
            elements = soup.find_all(selector, limit=50)
            for elem in elements:
                text = elem.get_text(strip=True)
                if len(text) > 20 and len(text) < 200:
                    headlines.append(text)
        return list(set(headlines))[:30]
    except Exception as e:
        print(...)
        return []
```

The network fetch and HTML parse are external; they are modelled by an
outcome: either the per-selector element texts (in collection order,
each selector already capped at 50 by `find_all(limit=50)`), or a
failure (network error, non-2xx raised by `raise_for_status`, or parse
error), which the `except` turns into `[]`.  `list(set(headlines))`
deduplicates in an implementation-defined (hash) order; it is modelled
by `List.dedup`.  Every property proved below (emptiness on failure,
no duplicates, count cap, membership with length bounds) is invariant
under the iteration order of the set, so the choice of order does not
matter. -/

inductive FetchOutcome where
  | success (selectorTexts : List (List String))
  | failure
deriving Repr, DecidableEq

/-- `scrape_news_headlines` from src/app.py, over the fetch outcome. -/
def scrape_news_headlines : FetchOutcome → List String
  | .failure => []
  | .success selectorTexts =>
    let headlines :=
      (selectorTexts.map (fun ts => ts.filter (fun t => 20 < t.length ∧ t.length < 200))).flatten
    headlines.dedup.take 30

/-- Claim C7: the scraper keeps only element texts of length strictly
between 20 and 200, deduplicates by exact string equality, returns at
most 30 entries, and yields `[]` on any fetch/parse failure instead of
raising (the embedding is a total function; the `except` branch is the
`failure` case). -/
theorem claim_C7 (o : FetchOutcome) :
    (scrape_news_headlines o).length ≤ 30 ∧
    (scrape_news_headlines o).Nodup ∧
    (∀ t ∈ scrape_news_headlines o, 20 < t.length ∧ t.length < 200 ∧
      ∀ sel, o = .success sel → t ∈ sel.flatten) ∧
    scrape_news_headlines .failure = [] := by
  refine ⟨?_, ?_, ?_, rfl⟩
  · cases o with
    | failure => simp [scrape_news_headlines]
    | success sel =>
      have he : scrape_news_headlines (.success sel) =
          ((sel.map (fun ts => ts.filter
            (fun t => 20 < t.length ∧ t.length < 200))).flatten).dedup.take 30 := rfl
      rw [he, List.length_take]
      omega
  · cases o with
    | failure => simp [scrape_news_headlines]
    | success sel =>
      have he : scrape_news_headlines (.success sel) =
          ((sel.map (fun ts => ts.filter
            (fun t => 20 < t.length ∧ t.length < 200))).flatten).dedup.take 30 := rfl
      rw [he]
      exact (List.nodup_dedup _).sublist (List.take_sublist _ _)
  · cases o with
    | failure => intro t ht; simp [scrape_news_headlines] at ht
    | success sel =>
      intro t ht
      have he : scrape_news_headlines (.success sel) =
          ((sel.map (fun ts => ts.filter
            (fun t => 20 < t.length ∧ t.length < 200))).flatten).dedup.take 30 := rfl
      rw [he] at ht
      have ht' : t ∈ (sel.map (fun ts => ts.filter
          (fun t => 20 < t.length ∧ t.length < 200))).flatten.dedup :=
        List.mem_of_mem_take ht
      have htm := List.mem_dedup.mp ht'
      obtain ⟨l, hl, htl⟩ := List.mem_flatten.mp htm
      obtain ⟨ts, hts, rfl⟩ := List.mem_map.mp hl
      have := List.mem_filter.mp htl
      refine ⟨?_, ?_, ?_⟩
      · have := this.2
        simp at this
        omega
      · have := this.2
        simp at this
        omega
      · intro sel' hsel'
        have hse : sel' = sel := by
          injection hsel' with h
          exact h.symm
        subst hse
        exact List.mem_flatten.mpr ⟨ts, hts, this.1⟩

/-- Witness for claim C7 at a concrete successful fetch with one
in-bounds headline (and, via the theorem, the failure case). -/
theorem claim_C7_witness :
    20 < ("Breaking headline with text" : String).length ∧
    ("Breaking headline with text" : String).length < 200 ∧
    ∀ sel, FetchOutcome.success [["Breaking headline with text"]] = .success sel →
      "Breaking headline with text" ∈ sel.flatten :=
  (claim_C7 (.success [["Breaking headline with text"]])).2.2.1
    "Breaking headline with text" (by decide)

/-! ## `get_transcript_with_retry` (src/app.py lines 50-119)

The function optionally monkey-patches the module-global `requests.get`
with a proxied closure and restores it on every exit path.  The
embedding threads the mutable cell (the current value of
`requests.get`, drawn from an arbitrary type `V`) through the control
flow of the source:

* per attempt (`for attempt in range(max_retries)`), when a proxy is
  configured and reading the proxy string succeeds, the code binds
  `original_get = requests.get`, then assigns the fresh closure
  (`proxied v`, distinct per attempt), tries `hi` then `en`
  (`fetch attempt lang`), and on each exit of the attempt assigns
  `requests.get = original_get` back;
* a malformed proxy string makes `WEBSHARE_PROXY.split('@')[1]` raise
  before `original_get` is ever bound, so the attempt fails with the
  cell untouched;
* the outer handler of the last attempt re-runs the restore before
  re-raising (a no-op if the cell was already restored; a `NameError`
  leaving the cell untouched when `original_get` was never bound).

Exceptions escaping `except Exception` (e.g. `KeyboardInterrupt`) and
interleavings by concurrent threads are outside this sequential model;
the spec itself flags the global mutation as a concurrency hazard. -/

structure RetryEnv (V : Type) where
  /-- value of `requests.get` when the function is entered -/
  g0 : V
  /-- the fresh `proxied_get` closure created in attempt `i` -/
  proxied : Nat → V
  /-- `WEBSHARE_PROXY` is set -/
  proxy : Bool
  /-- `WEBSHARE_PROXY.split('@')` has no second component, so the
  banner `print` raises before the patch -/
  malformed : Bool
  /-- outcome of `ytt_api.fetch(video_id, languages=[lang])` in attempt
  `i` for language index `lang` (0 = `'hi'`, 1 = `'en'`); `none` is an
  exception -/
  fetch : Nat → Nat → Option String

inductive RetryResult where
  | ok (text : String) (lang : String)
  | raised
  | fellThrough
deriving Repr, DecidableEq

/-- One attempt body: returns (cell value on exit, `original_get`
binding on exit, outcome), where the outcome `none` means the attempt
raised into the outer handler. -/
def attemptRun {V : Type} (env : RetryEnv V) (attempt : Nat) (g : V) (origVar : Option V) :
    V × Option V × Option (String × String) :=
  if env.proxy then
    if env.malformed then
      -- the banner print raises; nothing bound, nothing patched
      (g, origVar, none)
    else
      -- original_get = requests.get; requests.get = proxied_get
      let original_get := g
      match env.fetch attempt 0 with
      | some t => (original_get, some original_get, some (t, "hi"))
      | none =>
        match env.fetch attempt 1 with
        | some t => (original_get, some original_get, some (t, "en"))
        | none => (original_get, some original_get, none)
  else
    -- no proxy: no patch, no restore
    match env.fetch attempt 0 with
    | some t => (g, origVar, some (t, "hi"))
    | none =>
      match env.fetch attempt 1 with
      | some t => (g, origVar, some (t, "en"))
      | none => (g, origVar, none)

/-- The retry loop: `for attempt in range(max_retries)` with the outer
`except` of the source. -/
def retryLoop {V : Type} (env : RetryEnv V) (maxR : Nat) :
    Nat → V → Option V → V × RetryResult
  | attempt, g, origVar =>
    if h : attempt < maxR then
      match attemptRun env attempt g origVar with
      | (g', _, some (t, l)) => (g', .ok t l)
      | (g', ov', none) =>
        if attempt = maxR - 1 then
          -- last attempt: restore (NameError if never bound) and re-raise
          if env.proxy then
            match ov' with
            | some og => (og, .raised)
            | none => (g', .raised)
          else (g', .raised)
        else retryLoop env maxR (attempt + 1) g' ov'
    else (g, .fellThrough)
termination_by attempt g origVar => maxR - attempt

/-- `get_transcript_with_retry` from src/app.py, as a transition on the
`requests.get` cell: returns the cell value at exit and the outcome. -/
def get_transcript_with_retry {V : Type} (env : RetryEnv V) (maxR : Nat) : V × RetryResult :=
  retryLoop env maxR 0 env.g0 none

theorem attemptRun_state {V : Type} (env : RetryEnv V) (attempt : Nat) (g : V)
    (origVar : Option V) :
    (attemptRun env attempt g origVar).1 = g ∧
    ((attemptRun env attempt g origVar).2.1 = origVar ∨
     (attemptRun env attempt g origVar).2.1 = some g) := by
  unfold attemptRun
  by_cases hp : env.proxy
  · by_cases hm : env.malformed
    · simp [hp, hm]
    · simp only [hp, hm, if_true, if_false, Bool.false_eq_true]
      cases env.fetch attempt 0 with
      | some t => simp
      | none =>
        cases env.fetch attempt 1 with
        | some t => simp
        | none => simp
  · simp only [hp, Bool.false_eq_true, if_false]
    cases env.fetch attempt 0 with
    | some t => simp
    | none =>
      cases env.fetch attempt 1 with
      | some t => simp
      | none => simp

theorem retryLoop_restores {V : Type} (env : RetryEnv V) (maxR : Nat) :
    ∀ fuel attempt (origVar : Option V), maxR - attempt ≤ fuel →
      (origVar = none ∨ origVar = some env.g0) →
      (retryLoop env maxR attempt env.g0 origVar).1 = env.g0 := by
  intro fuel
  induction fuel with
  | zero =>
    intro attempt origVar hle hov
    rw [retryLoop]
    rw [dif_neg (by omega)]
  | succ n ih =>
    intro attempt origVar hle hov
    rw [retryLoop]
    by_cases hlt : attempt < maxR
    · rw [dif_pos hlt]
      obtain ⟨hst, hob⟩ := attemptRun_state env attempt env.g0 origVar
      cases ha : attemptRun env attempt env.g0 origVar with
      | mk g' rest =>
        obtain ⟨ov', out⟩ := rest
        rw [ha] at hst hob
        simp only at hst hob
        subst hst
        cases out with
        | some p => obtain ⟨t, l⟩ := p; simp
        | none =>
          simp only
          by_cases hlast : attempt = maxR - 1
          · rw [if_pos hlast]
            by_cases hp : env.proxy
            · rw [if_pos hp]
              cases ov' with
              | none => simp
              | some og =>
                have : some og = origVar ∨ some og = some env.g0 := hob
                rcases this with h1 | h1
                · rcases hov with h2 | h2
                  · rw [h2] at h1; simp at h1
                  · rw [h2] at h1
                    simp only [Option.some.injEq] at h1
                    simp [h1]
                · simp only [Option.some.injEq] at h1
                  simp [h1]
            · rw [if_neg hp]
          · rw [if_neg hlast]
            apply ih (attempt + 1) ov' (by omega)
            rcases hob with h1 | h1
            · rw [h1]; exact hov
            · rw [h1]; right; rfl
    · rw [dif_neg hlt]

/-- Claim C5: for every proxy configuration and every outcome of every
attempt (first-try success, success after retries, failure after
exhausting the retries, even a malformed proxy string), the module
global `requests.get` holds its original pre-patch value again when
`get_transcript_with_retry` returns or raises. -/
theorem claim_C5 {V : Type} (env : RetryEnv V) (maxR : Nat) (hp : env.proxy = true) :
    (get_transcript_with_retry env maxR).1 = env.g0 := by
  unfold get_transcript_with_retry
  exact retryLoop_restores env maxR maxR 0 none (by omega) (Or.inl rfl)

/-- Witness for claim C5: a proxied run (cell values as naturals,
`g0 = 0`, attempt `i` patching the cell to `i + 1`) that fails `hi`,
succeeds on `en` in the second attempt, and exits with the cell
restored to `0`. -/
theorem claim_C5_witness :
    (get_transcript_with_retry
      { g0 := (0 : Nat), proxied := fun i => i + 1, proxy := true, malformed := false,
        fetch := fun a l => if a = 1 ∧ l = 1 then some "transcript" else none } 3).1 = 0 :=
  claim_C5 _ 3 rfl

/-! ## The `/generate` endpoint `generate_scripts` (src/app.py lines 552-689)

The endpoint is modelled as a function of the request body and an
oracle environment fixing the outcome of every external call, returning
the HTTP response together with the trace of external calls it issued,
in source order.  Notes on the embedding:

* The JSON body is modelled as optional (`request.get_json()` may yield
  `None`), with `video_urls` absent or a list of strings and
  `num_scripts` absent or a JSON scalar — an integer, a float (JSON
  numbers like `2.5`), or a string.  With a list-or-absent
  `video_urls`, the `isinstance(video_urls, list)` check never fires
  and is therefore not a branch of the model.
* `num_scripts < 1 or num_scripts > 5` compares ints and floats
  successfully (so `2.5` passes validation!), while a string raises
  `TypeError`, caught by the top-level handler as a 500.  A float that
  passed validation raises `TypeError` later, at the `scripts[:num_scripts]`
  slice inside `parse_scripts` — after the summarize/scrape/verify/
  generate calls have all been issued.  Exact CPython exception texts
  are abbreviated.
* `get_transcript_with_retry` returning a falsy transcript or raising
  both make the loop `continue`; `create_ai_summary` is total (it
  returns the `get_summary` fallback on any failure), so a processed
  video always contributes a summary.
* Three scrapes (`NEWS_SOURCES` has three entries), one verification,
  one generation, one upload; `upload_to_sheets` either returns the
  sheet url or raises, which the top-level handler turns into a 500. -/

inductive NumVal where
  | int (n : Int)
  /-- a non-integral JSON number, as the exact fraction `num / den`
  (`den > 0`); an IEEE double is an exact rational and CPython compares
  it with ints by exact value, so exact fraction comparison is
  faithful -/
  | float (num : Int) (den : Nat)
  | str (s : String)
deriving Repr, DecidableEq

structure ReqBody where
  video_urls : Option (List String)
  num_scripts : Option NumVal
deriving Repr, DecidableEq

inductive CallTag where
  | transcriptFetch
  | summarize
  | scrape
  | verify
  | scriptGen
  | sheetUpload
deriving Repr, DecidableEq

structure ScriptMeta where
  number : Nat
  title : String
  theme : String
  word_count : Nat
deriving Repr, DecidableEq

structure GenData where
  videos_processed : Nat
  scripts_generated : Nat
  sheet_url : String
  credibility : String
  scripts : List ScriptMeta
deriving Repr, DecidableEq

structure GenResponse where
  code : Nat
  status : String
  message : String
  data : Option GenData
deriving Repr, DecidableEq

structure PipelineEnv where
  /-- `GROQ_API_KEY` present -/
  groq_key : Bool
  /-- `GOOGLE_CREDS_JSON` present -/
  google_creds : Bool
  /-- outcome of `get_transcript_with_retry` for the idx-th enumerated
  video: `none` models an exception, `some (text, lang)` a return
  (a falsy `text = ""` is skipped by `if not transcript`) -/
  transcript : Nat → Option (String × String)
  /-- result of `create_ai_summary` for the idx-th video (total: it
  falls back to `get_summary` internally on any failure) -/
  summary : Nat → String
  /-- result of `verify_news_with_groq` (total: returns
  `"Verification unavailable"` on failure) -/
  verification : String
  /-- result of `create_instagram_scripts` (total: returns an
  `"Error: ..."` string on failure) -/
  raw_scripts : String
  /-- `upload_to_sheets`: the sheet url, or `none` for a raise -/
  upload : Option String

def errResp (code : Nat) (msg : String) : GenResponse :=
  { code := code, status := "error", message := msg, data := none }

/-- The per-video loop (`for idx, url in enumerate(video_urls[:5])`):
returns (summaries, processed_count, trace). -/
def processGo (env : PipelineEnv) : List String → Nat → List String × Nat × List CallTag
  | [], _ => ([], 0, [])
  | url :: rest, idx =>
    match extract_video_id url with
    | none => processGo env rest (idx + 1)
    | some _vid =>
      match env.transcript idx with
      | none =>
        let r := processGo env rest (idx + 1)
        (r.1, r.2.1, CallTag.transcriptFetch :: r.2.2)
      | some (text, _lang) =>
        if text = "" then
          let r := processGo env rest (idx + 1)
          (r.1, r.2.1, CallTag.transcriptFetch :: r.2.2)
        else
          let r := processGo env rest (idx + 1)
          (env.summary idx :: r.1, r.2.1 + 1,
            CallTag.transcriptFetch :: CallTag.summarize :: r.2.2)

inductive NumCheck where
  | ok
  | outOfRange
  | typeErr
deriving Repr, DecidableEq

/-- The `if num_scripts < 1 or num_scripts > 5` validation: ints and
floats compare against the int bounds; a string raises `TypeError`. -/
def numCheck : NumVal → NumCheck
  | .int n => if n < 1 ∨ n > 5 then .outOfRange else .ok
  | .float num den => if num < 1 * (den : Int) ∨ num > 5 * (den : Int) then .outOfRange else .ok
  | .str _ => .typeErr

/-- The `scripts[:num_scripts]` slice bound: only an int is a valid
slice index (a float raises `TypeError`); valid ints here are in
`[1, 5]`, where Python slicing equals `take`. -/
def sliceCount : NumVal → Option Nat
  | .int n => some n.toNat
  | .float _ _ => none
  | .str _ => none

/-- The `/generate` endpoint `generate_scripts` of src/app.py, over the
oracle environment: the HTTP response and the trace of external calls
issued, in source order. -/
def generate_scripts (env : PipelineEnv) (body : Option ReqBody) :
    GenResponse × List CallTag :=
  if env.groq_key = false then
    (errResp 500 "GROQ_API_KEY not configured in environment variables", [])
  else if env.google_creds = false then
    (errResp 500 "GOOGLE_CREDS_JSON not configured in environment variables", [])
  else
    match body with
    | none => (errResp 400 "No JSON data provided", [])
    | some data =>
      let video_urls := data.video_urls.getD []
      let num_scripts := data.num_scripts.getD (.int 2)
      if video_urls.isEmpty then
        (errResp 400 "Please provide at least 1 video URL", [])
      else
        match numCheck num_scripts with
        | .typeErr => (errResp 500 "TypeError: unorderable str and int", [])
        | .outOfRange => (errResp 400 "num_scripts must be between 1 and 5", [])
        | .ok =>
          let pr := processGo env (video_urls.take 5) 0
          if pr.2.1 = 0 then
            (errResp 400 "No videos could be processed. Check if videos have captions.",
              pr.2.2)
          else
            let tr4 := pr.2.2 ++ [.scrape, .scrape, .scrape, .verify, .scriptGen]
            let credibility := extractCredibility env.verification
            match sliceCount num_scripts with
            | none =>
              (errResp 500 "slice indices must be integers or None or have an __index__ method",
                tr4)
            | some k =>
              let parsed := parse_scripts env.raw_scripts k
              let tr5 := tr4 ++ [.sheetUpload]
              match env.upload with
              | none => (errResp 500 "Sheet upload error", tr5)
              | some url =>
                ({ code := 200, status := "success",
                   message := "Scripts generated and uploaded successfully",
                   data := some
                     { videos_processed := pr.2.1
                       scripts_generated := parsed.length
                       sheet_url := url
                       credibility := credibility
                       scripts := parsed.map (fun s =>
                         { number := s.number, title := s.title, theme := s.theme,
                           word_count := s.word_count }) } }, tr5)

/-! ## Claims C2, C3, C10 about `/generate` -/

/-- The idx-th video contributes nothing: `get_transcript_with_retry`
raised, or returned a falsy (empty) transcript. -/
def transcriptMissing (env : PipelineEnv) (idx : Nat) : Prop :=
  ∀ text lang, env.transcript idx = some (text, lang) → text = ""

/-- The idx-th enumerated URL is skipped by the loop: no extractable
video id, or no usable transcript. -/
def videoSkipped (env : PipelineEnv) (url : String) (idx : Nat) : Prop :=
  extract_video_id url = none ∨ transcriptMissing env idx

theorem processGo_allSkip (env : PipelineEnv) :
    ∀ (l : List String) (idx : Nat),
      (∀ j, j < l.length → videoSkipped env (l.getD j "") (idx + j)) →
      (processGo env l idx).1 = [] ∧ (processGo env l idx).2.1 = 0 ∧
      ∀ t ∈ (processGo env l idx).2.2, t = CallTag.transcriptFetch := by
  intro l
  induction l with
  | nil => intro idx _; exact ⟨rfl, rfl, by simp [processGo]⟩
  | cons url rest ih =>
    intro idx h
    have h0 : videoSkipped env url idx := by simpa using h 0 (by simp)
    have hrest : ∀ j, j < rest.length → videoSkipped env (rest.getD j "") (idx + 1 + j) := by
      intro j hj
      have := h (j + 1) (by simp; omega)
      simpa [Nat.add_assoc, Nat.add_comm 1 j] using this
    have ihr := ih (idx + 1) hrest
    cases hx : extract_video_id url with
    | none => simpa [processGo, hx] using ihr
    | some vid =>
      have hmiss : transcriptMissing env idx := by
        rcases h0 with hnone | hmiss
        · rw [hx] at hnone; exact absurd hnone (by simp)
        · exact hmiss
      cases htr : env.transcript idx with
      | none =>
        refine ⟨by simp [processGo, hx, htr, ihr.1], by simp [processGo, hx, htr, ihr.2.1], ?_⟩
        intro t ht
        simp only [processGo, hx, htr] at ht
        rcases (by simpa using ht :
            t = CallTag.transcriptFetch ∨ t ∈ (processGo env rest (idx + 1)).2.2) with h1 | h1
        · exact h1
        · exact ihr.2.2 t h1
      | some p =>
        obtain ⟨text, lang⟩ := p
        have htext : text = "" := hmiss text lang htr
        subst htext
        refine ⟨by simp [processGo, hx, htr, ihr.1], by simp [processGo, hx, htr, ihr.2.1], ?_⟩
        intro t ht
        simp only [processGo, hx, htr, if_pos rfl] at ht
        rcases (by simpa using ht :
            t = CallTag.transcriptFetch ∨ t ∈ (processGo env rest (idx + 1)).2.2) with h1 | h1
        · exact h1
        · exact ihr.2.2 t h1

/-- Claim C2: when the request passes validation but no video is
successfully processed (for each of the up-to-five enumerated URLs,
the id fails to extract or the transcript raises/comes back empty —
summarization cannot fail, it falls back internally), the endpoint
answers 400 with the no-videos-processed message and never issues a
headline-scrape, verification, script-generation, or sheet-upload
call. -/
theorem claim_C2 (env : PipelineEnv) (b : ReqBody) (urls : List String)
    (hg : env.groq_key = true) (hgo : env.google_creds = true)
    (hu : b.video_urls = some urls) (hne : urls ≠ [])
    (hn : numCheck (b.num_scripts.getD (.int 2)) = .ok)
    (hskip : ∀ j, j < (urls.take 5).length →
      videoSkipped env ((urls.take 5).getD j "") j) :
    (generate_scripts env (some b)).1.code = 400 ∧
    (generate_scripts env (some b)).1.message =
      "No videos could be processed. Check if videos have captions." ∧
    CallTag.scrape ∉ (generate_scripts env (some b)).2 ∧
    CallTag.verify ∉ (generate_scripts env (some b)).2 ∧
    CallTag.scriptGen ∉ (generate_scripts env (some b)).2 ∧
    CallTag.sheetUpload ∉ (generate_scripts env (some b)).2 := by
  have hpg := processGo_allSkip env (urls.take 5) 0 (by simpa using hskip)
  unfold generate_scripts
  rw [hg, hgo]
  simp only [Bool.true_eq_false, if_false]
  rw [hu]
  simp only [Option.getD_some]
  rw [if_neg (by simpa using hne)]
  rw [hn]
  simp only
  rw [if_pos hpg.2.1]
  refine ⟨rfl, rfl, ?_, ?_, ?_, ?_⟩ <;>
    (intro hmem; have := hpg.2.2 _ hmem; simp at this)

/-- Witness for claim C2: one syntactically valid URL whose transcript
fetch always raises; the endpoint returns the 400 and the trace shows
none of the forbidden calls. -/
theorem claim_C2_witness :
    (generate_scripts
      { groq_key := true, google_creds := true, transcript := fun _ => none,
        summary := fun _ => "", verification := "", raw_scripts := "", upload := none }
      (some { video_urls := some ["https://youtube.com/watch?v=abcdefghijk"],
              num_scripts := some (.int 2) })).1.code = 400 ∧
    (generate_scripts
      { groq_key := true, google_creds := true, transcript := fun _ => none,
        summary := fun _ => "", verification := "", raw_scripts := "", upload := none }
      (some { video_urls := some ["https://youtube.com/watch?v=abcdefghijk"],
              num_scripts := some (.int 2) })).1.message =
      "No videos could be processed. Check if videos have captions." ∧
    CallTag.scrape ∉ (generate_scripts
      { groq_key := true, google_creds := true, transcript := fun _ => none,
        summary := fun _ => "", verification := "", raw_scripts := "", upload := none }
      (some { video_urls := some ["https://youtube.com/watch?v=abcdefghijk"],
              num_scripts := some (.int 2) })).2 ∧
    CallTag.verify ∉ (generate_scripts
      { groq_key := true, google_creds := true, transcript := fun _ => none,
        summary := fun _ => "", verification := "", raw_scripts := "", upload := none }
      (some { video_urls := some ["https://youtube.com/watch?v=abcdefghijk"],
              num_scripts := some (.int 2) })).2 ∧
    CallTag.scriptGen ∉ (generate_scripts
      { groq_key := true, google_creds := true, transcript := fun _ => none,
        summary := fun _ => "", verification := "", raw_scripts := "", upload := none }
      (some { video_urls := some ["https://youtube.com/watch?v=abcdefghijk"],
              num_scripts := some (.int 2) })).2 ∧
    CallTag.sheetUpload ∉ (generate_scripts
      { groq_key := true, google_creds := true, transcript := fun _ => none,
        summary := fun _ => "", verification := "", raw_scripts := "", upload := none }
      (some { video_urls := some ["https://youtube.com/watch?v=abcdefghijk"],
              num_scripts := some (.int 2) })).2 :=
  claim_C2 _ _ ["https://youtube.com/watch?v=abcdefghijk"] rfl rfl rfl (by simp) rfl
    (fun j hj => Or.inr (fun text lang h => nomatch h))

/-- Claim C3 (amended): for every request body whose `num_scripts`
value is an integer outside `[1, 5]` (credentials configured,
`video_urls` a non-empty list), the endpoint answers 400 naming the
`num_scripts` constraint and issues no external call first. -/
theorem claim_C3_amended (env : PipelineEnv) (b : ReqBody) (urls : List String) (n : Int)
    (hg : env.groq_key = true) (hgo : env.google_creds = true)
    (hu : b.video_urls = some urls) (hne : urls ≠ [])
    (hn : b.num_scripts = some (.int n)) (hout : n < 1 ∨ n > 5) :
    (generate_scripts env (some b)).1.code = 400 ∧
    (generate_scripts env (some b)).1.message = "num_scripts must be between 1 and 5" ∧
    (generate_scripts env (some b)).2 = [] := by
  unfold generate_scripts
  rw [hg, hgo]
  simp only [Bool.true_eq_false, if_false]
  rw [hu, hn]
  simp only [Option.getD_some]
  rw [if_neg (by simpa using hne)]
  have : numCheck (.int n) = .outOfRange := by
    simp only [numCheck]
    rw [if_pos hout]
  rw [this]
  exact ⟨rfl, rfl, rfl⟩

/-- Witness for the amended claim C3: `num_scripts = 7` with one valid
URL and configured credentials yields the 400 and an empty call
trace. -/
theorem claim_C3_amended_witness :
    (generate_scripts
      { groq_key := true, google_creds := true,
        transcript := fun _ => some ("hello", "hi"), summary := fun _ => "sum",
        verification := "", raw_scripts := "", upload := some "url" }
      (some { video_urls := some ["https://youtube.com/watch?v=abcdefghijk"],
              num_scripts := some (.int 7) })).1.code = 400 ∧
    (generate_scripts
      { groq_key := true, google_creds := true,
        transcript := fun _ => some ("hello", "hi"), summary := fun _ => "sum",
        verification := "", raw_scripts := "", upload := some "url" }
      (some { video_urls := some ["https://youtube.com/watch?v=abcdefghijk"],
              num_scripts := some (.int 7) })).1.message =
      "num_scripts must be between 1 and 5" ∧
    (generate_scripts
      { groq_key := true, google_creds := true,
        transcript := fun _ => some ("hello", "hi"), summary := fun _ => "sum",
        verification := "", raw_scripts := "", upload := some "url" }
      (some { video_urls := some ["https://youtube.com/watch?v=abcdefghijk"],
              num_scripts := some (.int 7) })).2 = [] :=
  claim_C3_amended _ _ ["https://youtube.com/watch?v=abcdefghijk"] 7 rfl rfl rfl (by simp)
    rfl (by omega)

/-- A request carrying the non-integer `num_scripts` value `2.5`
(a legal JSON number), credentials configured, one processable video. -/
def envC3 : PipelineEnv :=
  { groq_key := true, google_creds := true,
    transcript := fun _ => some ("hello transcript", "hi"),
    summary := fun _ => "summary text",
    verification := "CREDIBILITY: 90%",
    raw_scripts := "no markers here",
    upload := some "sheet-url" }

def bodyC3 : ReqBody :=
  { video_urls := some ["https://youtube.com/watch?v=abcdefghijk"],
    num_scripts := some (.float 5 2) }

/-- Counterexample to claim C3 as stated: `num_scripts = 2.5` is not an
integer in `[1, 5]`, yet `2.5 < 1 or 2.5 > 5` is false, so validation
passes; the pipeline then issues its external calls and dies much later
with a `TypeError` at the `scripts[:num_scripts]` slice — a 500, not
the claimed 400, and not before external calls. -/
theorem claim_C3_counterexample :
    (generate_scripts envC3 (some bodyC3)).1.code = 500 ∧
    (generate_scripts envC3 (some bodyC3)).1.code ≠ 400 ∧
    CallTag.transcriptFetch ∈ (generate_scripts envC3 (some bodyC3)).2 ∧
    CallTag.scriptGen ∈ (generate_scripts envC3 (some bodyC3)).2 := by
  refine ⟨by decide, by decide, by decide, by decide⟩

/-- Claim C10: a body that omits `num_scripts` is not rejected — the
count silently defaults to 2, so whatever the outcome of the pipeline,
the response never carries the `num_scripts` validation message, and a
success payload holds at most 2 parsed script records. -/
theorem claim_C10 (env : PipelineEnv) (b : ReqBody) (urls : List String)
    (hu : b.video_urls = some urls) (hne : urls ≠ [])
    (hn : b.num_scripts = none) :
    (generate_scripts env (some b)).1.message ≠ "num_scripts must be between 1 and 5" ∧
    ∀ d, (generate_scripts env (some b)).1.data = some d →
      d.scripts_generated ≤ 2 ∧ d.scripts.length ≤ 2 := by
  unfold generate_scripts
  by_cases hg : env.groq_key = false
  · rw [if_pos hg]
    exact ⟨by simp [errResp], by simp [errResp]⟩
  · rw [if_neg hg]
    by_cases hgo : env.google_creds = false
    · rw [if_pos hgo]
      exact ⟨by simp [errResp], by simp [errResp]⟩
    · rw [if_neg hgo]
      simp only
      rw [hu, hn]
      simp only [Option.getD_some, Option.getD_none]
      by_cases hemp : urls.isEmpty
      · rw [if_pos hemp]
        exact ⟨by simp [errResp], by simp [errResp]⟩
      · rw [if_neg hemp]
        have hnc : numCheck (.int 2) = .ok := rfl
        rw [hnc]
        simp only
        by_cases hzero : (processGo env (urls.take 5) 0).2.1 = 0
        · rw [if_pos hzero]
          exact ⟨by simp [errResp], by simp [errResp]⟩
        · rw [if_neg hzero]
          have hsl : sliceCount (.int 2) = some 2 := rfl
          rw [hsl]
          simp only
          cases hup : env.upload with
          | none =>
            exact ⟨by simp [errResp], by simp [errResp]⟩
          | some url =>
            constructor
            · simp
            · intro d hd
              simp only [Option.some.injEq] at hd
              subst hd
              simp only [List.length_map]
              constructor <;>
                (unfold parse_scripts
                 simp only
                 rw [List.length_take]
                 omega)

/-- Witness for claim C10: omitted `num_scripts`, one processable
video, generator output with three script blocks; the successful
response still reports at most two records. -/
theorem claim_C10_witness :
    (generate_scripts envC3
      (some { video_urls := some ["https://youtube.com/watch?v=abcdefghijk"],
              num_scripts := none })).1.message ≠
      "num_scripts must be between 1 and 5" ∧
    ∀ d, (generate_scripts envC3
      (some { video_urls := some ["https://youtube.com/watch?v=abcdefghijk"],
              num_scripts := none })).1.data = some d →
      d.scripts_generated ≤ 2 ∧ d.scripts.length ≤ 2 :=
  claim_C10 envC3 _ ["https://youtube.com/watch?v=abcdefghijk"] rfl (by simp) rfl

/-! ## Claim C1: parsing two well-formed script blocks

The output format demanded by the prompt of `create_instagram_scripts`
(src/app.py lines 365-392) frames each script as

```
════════════════════════════════════════════════════════
SCRIPT <n>
TITLE: <title>
THEME: <theme>
WORD COUNT: <count>
════════════════════════════════════════════════════════

<body>
```

`twoScriptText` below builds exactly this text for two blocks, with the
title/theme/word-count fields and bodies as parameters.  Well-formedness
of the parameters (`fieldOkB`, `bodyOkB`) asks that they are non-empty,
carry no stray delimiter/label/marker occurrences, and have non-blank
edges ­— the shape the format demands of its fillers. -/

def ruleL : List Char := List.replicate 56 '═'

def segNL : List Char := ['\n']

/-- `TITLE: ` -/
def tagT : List Char := ['T', 'I', 'T', 'L', 'E', ':', ' ']

/-- `THEME: ` -/
def tagH : List Char := ['T', 'H', 'E', 'M', 'E', ':', ' ']

/-- `WORD COUNT: ` -/
def tagW : List Char := ['W', 'O', 'R', 'D', ' ', 'C', 'O', 'U', 'N', 'T', ':', ' ']

/-- `SCRIPT <d>` -/
def markSeg (d : Char) : List Char := ['S', 'C', 'R', 'I', 'P', 'T', ' ', d]

/-- Rule line, blank line, body, then `suf`. -/
def seg3 (b suf : List Char) : List Char :=
  ruleL ++ (segNL ++ (segNL ++ (b ++ suf)))

/-- `WORD COUNT:` line onwards. -/
def seg2 (w b suf : List Char) : List Char :=
  tagW ++ (w ++ (segNL ++ seg3 b suf))

/-- `THEME:` line onwards. -/
def seg1 (th w b suf : List Char) : List Char :=
  tagH ++ (th ++ (segNL ++ seg2 w b suf))

/-- The stripped span of one block: label lines, rule, blank line, body,
then `suf` (`[]` for the last block; newlines plus the next rule line
for an inner block). -/
def coreC (t th w b suf : List Char) : List Char :=
  tagT ++ (t ++ (segNL ++ seg1 th w b suf))

/-- The raw span following a `SCRIPT <n>` marker. -/
def partBody (t th w b suf : List Char) : List Char :=
  segNL ++ (coreC t th w b suf ++ segNL)

/-- The whole generated text with exactly two well-formed blocks. -/
def twoScriptText (t1 th1 w1 b1 t2 th2 w2 b2 : String) : String :=
  (ruleL ++ (segNL ++ (markSeg '1' ++
    (partBody t1.data th1.data w1.data b1.data (segNL ++ (segNL ++ ruleL)) ++
      (markSeg '2' ++ partBody t2.data th2.data w2.data b2.data []))))).asString

/-- Well-formedness of a TITLE/THEME/WORD COUNT field: non-empty, no
newline or rule glyph, non-blank first and last character, and no
embedded (case-insensitive) `script`/`title:`/`theme:`/`word`
occurrence that could confuse the marker split, the field patterns, or
the label-line removals. -/
def fieldOkB (t : List Char) : Bool :=
  !t.isEmpty &&
  (match t.head? with | some c => !isSpaceCh c | none => false) &&
  (match t.getLast? with | some c => !isSpaceCh c | none => false) &&
  t.all (fun c => c ≠ '\n' && c ≠ '═') &&
  !hasCI scriptWord t && !hasCI titleLabel t && !hasCI themeLabel t && !hasCI wordWord t

/-- Well-formedness of a script body: non-empty, no rule glyph,
non-blank first and last character (newlines inside are fine), and no
embedded (case-insensitive) `script`/`title:`/`theme:`/`word count:`
occurrence. -/
def bodyOkB (b : List Char) : Bool :=
  !b.isEmpty &&
  (match b.head? with | some c => !isSpaceCh c | none => false) &&
  (match b.getLast? with | some c => !isSpaceCh c | none => false) &&
  b.all (fun c => c ≠ '═') &&
  !hasCI scriptWord b && !hasCI titleLabel b && !hasCI themeLabel b && !hasCI wcLabel b

/-! ### Generic helper lemmas for the skeleton analysis -/

theorem mem_ruleL {c : Char} (h : c ∈ ruleL) : c = '═' := by
  unfold ruleL at h
  exact List.eq_of_mem_replicate h

theorem isSpaceCh_of_digit {c : Char} (h : isDigitCh c = true) : isSpaceCh c = false := by
  cases hs : isSpaceCh c with
  | false => rfl
  | true =>
    exfalso
    unfold isSpaceCh at hs
    unfold isDigitCh at h
    rcases (by simpa using hs : c = ' ' ∨ c = '\t' ∨ c = '\n' ∨ c = '\r' ∨
      c = '\x0b' ∨ c = '\x0c') with h' | h' | h' | h' | h' | h' <;>
      (rw [h'] at h; simp at h)

/-- `str.strip` of blank padding around a non-blank-edged core. -/
theorem pyStrip_sandwich {pre b post : List Char}
    (hpre : pre.all isSpaceCh = true) (hpost : post.all isSpaceCh = true)
    (hne : b ≠ [])
    (hh : ∀ c, b.head? = some c → isSpaceCh c = false)
    (hl : ∀ c, b.getLast? = some c → isSpaceCh c = false) :
    pyStrip (pre ++ (b ++ post)) = b := by
  obtain ⟨b0, brest, rfl⟩ : ∃ b0 brest, b = b0 :: brest := by
    cases b with
    | nil => exact absurd rfl hne
    | cons x xs => exact ⟨x, xs, rfl⟩
  have hh0 : isSpaceCh b0 = false := hh b0 rfl
  unfold pyStrip
  have h1 : (pre ++ ((b0 :: brest) ++ post)).dropWhile isSpaceCh = b0 :: (brest ++ post) := by
    rw [dropWhile_append_all hpre, List.cons_append,
      List.dropWhile_cons_of_neg (by simp [hh0])]
  rw [h1]
  have h2 : b0 :: (brest ++ post) = (b0 :: brest) ++ post := by simp
  rw [h2, List.reverse_append]
  rw [dropWhile_append_all (by simpa using hpost)]
  cases hbr : (b0 :: brest).reverse with
  | nil => exact absurd (congrArg List.length hbr) (by simp)
  | cons c rs =>
    have hc : (b0 :: brest).getLast? = some c := by
      rw [← List.head?_reverse, hbr]
      rfl
    have hcns : isSpaceCh c = false := hl c hc
    rw [List.dropWhile_cons_of_neg (by simp [hcns])]
    rw [← hbr, List.reverse_reverse]

/-- `str.strip` is the identity on a non-blank-edged string. -/
theorem pyStrip_eq_self {b : List Char} (hne : b ≠ [])
    (hh : ∀ c, b.head? = some c → isSpaceCh c = false)
    (hl : ∀ c, b.getLast? = some c → isSpaceCh c = false) :
    pyStrip b = b := by
  have := @pyStrip_sandwich [] b [] (by simp) (by simp) hne hh hl
  simpa using this

/-- Unfolding equation of `findLazyGroup`. -/
theorem findLazyGroup_cons (term : List Char → Bool) (c : Char) (cs : List Char) :
    findLazyGroup term (c :: cs) =
      if c = '\n' then none
      else if term cs then some [c]
      else (findLazyGroup term cs).map (fun g => c :: g) := rfl

/-- The lazy group swallows exactly a terminator-free non-newline run
followed by a terminator. -/
theorem findLazy_concat {term : List Char → Bool} :
    ∀ {t tail : List Char}, t ≠ [] → (∀ c ∈ t, c ≠ '\n') →
      (∀ k, 0 < k → k < t.length → term (t.drop k ++ tail) = false) →
      term tail = true →
      findLazyGroup term (t ++ tail) = some t := by
  intro t
  induction t with
  | nil => intro tail h _ _ _; exact absurd rfl h
  | cons a t' ih =>
    intro tail _ hnl hmid hend
    rw [List.cons_append, findLazyGroup_cons]
    rw [if_neg (by simpa using hnl a (by simp))]
    by_cases ht' : t' = []
    · subst ht'
      simp only [List.nil_append]
      rw [hend]
      simp
    · have hlen : 0 < t'.length := List.length_pos.mpr ht'
      have hmid1 : term (t' ++ tail) = false := by
        have := hmid 1 (by omega) (by simp; omega)
        simpa using this
      rw [hmid1]
      have hrec := ih ht'
        (fun c hc => hnl c (by simp [hc]))
        (fun k hk0 hklen => by
          have := hmid (k + 1) (by omega) (by simp; omega)
          simpa using this)
        hend
      simp [hrec]

/-- Computation of the field pattern after a label, in the canonical
layout: one blank, the field, a newline. -/
theorem tryField_std {term : List Char → Bool} {t REST : List Char}
    (hne : t ≠ [])
    (hh : ∀ c, t.head? = some c → isSpaceCh c = false)
    (hnl : ∀ c ∈ t, c ≠ '\n')
    (hmid : ∀ k, 0 < k → k < t.length → term (t.drop k ++ '\n' :: REST) = false)
    (hend : term ('\n' :: REST) = true) :
    tryField term (' ' :: (t ++ '\n' :: REST)) = some t := by
  obtain ⟨t0, trest, rfl⟩ : ∃ t0 trest, t = t0 :: trest := by
    cases t with
    | nil => exact absurd rfl hne
    | cons x xs => exact ⟨x, xs, rfl⟩
  have hh0 : isSpaceCh t0 = false := hh t0 rfl
  unfold tryField
  have hws : ((' ' :: (t0 :: trest ++ '\n' :: REST)).takeWhile isSpaceCh).length = 1 := by
    rw [List.takeWhile_cons_of_pos (by decide)]
    rw [List.cons_append, List.takeWhile_cons_of_neg (by simp [hh0])]
    rfl
  rw [hws]
  unfold tryWsDown
  have hdrop : (' ' :: (t0 :: trest ++ '\n' :: REST)).drop 1 = t0 :: trest ++ '\n' :: REST := rfl
  rw [hdrop]
  rw [findLazy_concat (by simp) hnl hmid hend]

/-- Unfolding equation of `searchField`. -/
theorem searchField_cons (label : List Char) (term : List Char → Bool) (c : Char)
    (cs : List Char) :
    searchField label term (c :: cs) =
      match dropCI label (c :: cs) with
      | some rest =>
        match tryField term rest with
        | some g => some g
        | none => searchField label term cs
      | none => searchField label term cs := rfl

/-- `re.search` skips a region where the label cannot match. -/
theorem searchField_skip {label xs ys : List Char} (term : List Char → Bool)
    (h : noOccIn label xs ys) :
    searchField label term (xs ++ ys) = searchField label term ys := by
  induction xs with
  | nil => simp
  | cons c xs' ih =>
    have h0 : dropCI label (c :: xs' ++ ys) = none := by
      have := h 0 (by simp)
      simpa using this
    rw [List.cons_append, searchField_cons]
    rw [show (c :: (xs' ++ ys)) = (c :: xs' ++ ys) from rfl, h0]
    exact ih fun i hi => by
      have := h (i + 1) (by simp; omega)
      simpa using this

/-- `re.search` succeeds at a position where label and field pattern
both match. -/
theorem searchField_hit {label : List Char} {term : List Char → Bool} {c : Char}
    {cs rest g : List Char}
    (hd : dropCI label (c :: cs) = some rest)
    (ht : tryField term rest = some g) :
    searchField label term (c :: cs) = some g := by
  rw [searchField_cons, hd]
  simp only
  rw [ht]

/-- Concrete label consumption: `TITLE:` at the head of `TITLE: ...`. -/
theorem dropCI_tagT (rest : List Char) :
    dropCI titleLabel (tagT ++ rest) = some (' ' :: rest) := by
  show dropCI ['t', 'i', 't', 'l', 'e', ':'] ('T' :: 'I' :: 'T' :: 'L' :: 'E' :: ':' :: ' ' :: rest)
    = some (' ' :: rest)
  rw [dropCI_cons_eq (by decide), dropCI_cons_eq (by decide), dropCI_cons_eq (by decide),
    dropCI_cons_eq (by decide), dropCI_cons_eq (by decide), dropCI_cons_eq (by decide)]
  rfl

/-- Concrete label consumption: `THEME:` at the head of `THEME: ...`. -/
theorem dropCI_tagH (rest : List Char) :
    dropCI themeLabel (tagH ++ rest) = some (' ' :: rest) := by
  show dropCI ['t', 'h', 'e', 'm', 'e', ':'] ('T' :: 'H' :: 'E' :: 'M' :: 'E' :: ':' :: ' ' :: rest)
    = some (' ' :: rest)
  rw [dropCI_cons_eq (by decide), dropCI_cons_eq (by decide), dropCI_cons_eq (by decide),
    dropCI_cons_eq (by decide), dropCI_cons_eq (by decide), dropCI_cons_eq (by decide)]
  rfl

/-- Concrete label consumption: `WORD COUNT:` at the head of
`WORD COUNT: ...`. -/
theorem dropCI_tagW (rest : List Char) :
    dropCI wcLabel (tagW ++ rest) = some (' ' :: rest) := by
  show dropCI ['w', 'o', 'r', 'd', ' ', 'c', 'o', 'u', 'n', 't', ':']
    ('W' :: 'O' :: 'R' :: 'D' :: ' ' :: 'C' :: 'O' :: 'U' :: 'N' :: 'T' :: ':' :: ' ' :: rest)
    = some (' ' :: rest)
  rw [dropCI_cons_eq (by decide), dropCI_cons_eq (by decide), dropCI_cons_eq (by decide),
    dropCI_cons_eq (by decide), dropCI_cons_eq (by decide), dropCI_cons_eq (by decide),
    dropCI_cons_eq (by decide), dropCI_cons_eq (by decide), dropCI_cons_eq (by decide),
    dropCI_cons_eq (by decide), dropCI_cons_eq (by decide)]
  rfl

/-- `.*?\n` consumption: everything up to the first newline. -/
theorem dropToNewline_concat {t R : List Char} (hnl : ∀ c ∈ t, c ≠ '\n') :
    dropToNewline (t ++ '\n' :: R) = some R := by
  induction t with
  | nil => simp [dropToNewline]
  | cons a t' ih =>
    rw [List.cons_append]
    unfold dropToNewline
    rw [if_neg (by simpa using hnl a (by simp))]
    exact ih fun c hc => hnl c (by simp [hc])

/-- The `SCRIPT\s+(\d+)` match at its canonical occurrence: the marker
word, one blank, one digit, then a newline. -/
theorem matchMarker_std {d : Char} (hd : isDigitCh d = true) (rest : List Char)
    (hr : ∃ rest', rest = '\n' :: rest') :
    matchMarker (markSeg d ++ rest) = some ([d], rest) := by
  obtain ⟨rest', rfl⟩ := hr
  unfold matchMarker
  have hword : dropCI scriptWord (markSeg d ++ '\n' :: rest') =
      some (' ' :: d :: '\n' :: rest') := by
    show dropCI ['s', 'c', 'r', 'i', 'p', 't']
      ('S' :: 'C' :: 'R' :: 'I' :: 'P' :: 'T' :: ' ' :: d :: '\n' :: rest')
      = some (' ' :: d :: '\n' :: rest')
    rw [dropCI_cons_eq (by decide), dropCI_cons_eq (by decide), dropCI_cons_eq (by decide),
      dropCI_cons_eq (by decide), dropCI_cons_eq (by decide), dropCI_cons_eq (by decide)]
    rfl
  rw [hword]
  simp only
  have hsp : (' ' :: d :: '\n' :: rest').takeWhile isSpaceCh = [' '] := by
    rw [List.takeWhile_cons_of_pos (by decide),
      List.takeWhile_cons_of_neg (by simp [isSpaceCh_of_digit hd])]
  have hspdrop : (' ' :: d :: '\n' :: rest').dropWhile isSpaceCh = d :: '\n' :: rest' := by
    rw [List.dropWhile_cons_of_pos (by decide),
      List.dropWhile_cons_of_neg (by simp [isSpaceCh_of_digit hd])]
  rw [hsp]
  rw [if_neg (by simp)]
  rw [hspdrop]
  have hds : (d :: '\n' :: rest').takeWhile isDigitCh = [d] := by
    rw [List.takeWhile_cons_of_pos (by simp [hd]), List.takeWhile_cons_of_neg (by decide)]
  have hdsdrop : (d :: '\n' :: rest').dropWhile isDigitCh = '\n' :: rest' := by
    rw [List.dropWhile_cons_of_pos (by simp [hd]), List.dropWhile_cons_of_neg (by decide)]
  rw [hds]
  rw [if_neg (by simp)]
  rw [hdsdrop]

theorem fieldOk_spec {t : List Char} (h : fieldOkB t = true) :
    t ≠ [] ∧ (∀ c, t.head? = some c → isSpaceCh c = false) ∧
    (∀ c, t.getLast? = some c → isSpaceCh c = false) ∧
    (∀ c ∈ t, c ≠ '\n') ∧ (∀ c ∈ t, c ≠ '═') ∧
    hasCI scriptWord t = false ∧ hasCI titleLabel t = false ∧
    hasCI themeLabel t = false ∧ hasCI wordWord t = false := by
  unfold fieldOkB at h
  simp only [Bool.and_eq_true, Bool.not_eq_true'] at h
  obtain ⟨⟨⟨⟨⟨⟨⟨hemp, hhd⟩, hlast⟩, hall⟩, hs⟩, ht⟩, hh⟩, hw⟩ := h
  refine ⟨by simpa using hemp, ?_, ?_, ?_, ?_, hs, ht, hh, hw⟩
  · intro c hc
    rw [hc] at hhd
    simpa using hhd
  · intro c hc
    rw [hc] at hlast
    simpa using hlast
  · intro c hc
    have := List.all_eq_true.mp hall c hc
    simp only [Bool.and_eq_true, decide_eq_true_iff] at this
    exact this.1
  · intro c hc
    have := List.all_eq_true.mp hall c hc
    simp only [Bool.and_eq_true, decide_eq_true_iff] at this
    exact this.2

theorem bodyOk_spec {b : List Char} (h : bodyOkB b = true) :
    b ≠ [] ∧ (∀ c, b.head? = some c → isSpaceCh c = false) ∧
    (∀ c, b.getLast? = some c → isSpaceCh c = false) ∧
    (∀ c ∈ b, c ≠ '═') ∧
    hasCI scriptWord b = false ∧ hasCI titleLabel b = false ∧
    hasCI themeLabel b = false ∧ hasCI wcLabel b = false := by
  unfold bodyOkB at h
  simp only [Bool.and_eq_true, Bool.not_eq_true'] at h
  obtain ⟨⟨⟨⟨⟨⟨⟨hemp, hhd⟩, hlast⟩, hall⟩, hs⟩, ht⟩, hh⟩, hw⟩ := h
  refine ⟨by simpa using hemp, ?_, ?_, ?_, hs, ht, hh, hw⟩
  · intro c hc
    rw [hc] at hhd
    simpa using hhd
  · intro c hc
    rw [hc] at hlast
    simpa using hlast
  · intro c hc
    have := List.all_eq_true.mp hall c hc
    simpa using this

/-- The head of a proper suffix of a newline-free list is not a
newline. -/
theorem drop_head_ne {t : List Char} {k : Nat} (hk : k < t.length)
    (hnl : ∀ c ∈ t, c ≠ '\n') :
    ∀ c, (t.drop k).head? = some c → c ≠ '\n' := by
  intro c hc
  cases hdk : t.drop k with
  | nil =>
    exfalso
    have := List.length_drop k t
    rw [hdk] at this
    simp at this
    omega
  | cons x xs =>
    rw [hdk] at hc
    simp only [List.head?_cons, Option.some.injEq] at hc
    have hmem : x ∈ t := List.mem_of_mem_drop (n := k) (by rw [hdk]; simp)
    rw [← hc]
    exact hnl x hmem

/-- Mid-field failure of the TITLE terminator: no newline and no
`THEME:` occurrence inside the field. -/
theorem titleTerm_mid {t REST : List Char} (hnl : ∀ c ∈ t, c ≠ '\n')
    (hth : hasCI themeLabel t = false) :
    ∀ k, 0 < k → k < t.length → titleTerm (t.drop k ++ '\n' :: REST) = false := by
  intro k _ hk
  unfold titleTerm
  have hno : dropCI themeLabel ((t ++ '\n' :: REST).drop k) = none :=
    noOccIn_sandwich (by decide) hth k hk
  rw [List.drop_append_of_le_length (by omega)] at hno
  rw [hno]
  have hhd : ∀ c, ((t.drop k).head? = some c) → c ≠ '\n' := drop_head_ne hk hnl
  cases hdk : t.drop k with
  | nil =>
    exfalso
    have := List.length_drop k t
    rw [hdk] at this
    simp at this
    omega
  | cons x xs =>
    have hx : x ≠ '\n' := hhd x (by rw [hdk]; rfl)
    simp [hx]

/-- Mid-field failure of the THEME terminator: no newline, no `WORD`
occurrence, no rule glyph inside the field. -/
theorem themeTerm_mid {t REST : List Char} (hnl : ∀ c ∈ t, c ≠ '\n')
    (heq : ∀ c ∈ t, c ≠ '═') (hwd : hasCI wordWord t = false) :
    ∀ k, 0 < k → k < t.length → themeTerm (t.drop k ++ '\n' :: REST) = false := by
  intro k _ hk
  unfold themeTerm
  have hno : dropCI wordWord ((t ++ '\n' :: REST).drop k) = none :=
    noOccIn_sandwich (by decide) hwd k hk
  rw [List.drop_append_of_le_length (by omega)] at hno
  rw [hno]
  cases hdk : t.drop k with
  | nil =>
    exfalso
    have := List.length_drop k t
    rw [hdk] at this
    simp at this
    omega
  | cons x xs =>
    have hmem : x ∈ t := List.mem_of_mem_drop (by rw [hdk]; simp)
    have hx : x ≠ '\n' := hnl x hmem
    have hx2 : x ≠ '═' := heq x hmem
    simp [hx, hx2]

theorem getLast?_append_right {l1 l2 : List Char} (h : l2 ≠ []) :
    (l1 ++ l2).getLast? = l2.getLast? :=
  List.getLast?_append_of_ne_nil _ h

theorem ruleL_headMismatch {p : Char} {ps : List Char} (hp : lowerCh '═' ≠ lowerCh p)
    (ys : List Char) : noOccIn (p :: ps) ruleL ys :=
  noOccIn_headMismatch fun c hc => by rw [mem_ruleL hc]; exact hp

/-- A trailing region with no inner occurrence has no occurrence at
all: a match cannot run past the end of the text. -/
theorem noOccIn_last {pat xs : List Char} (hxs : hasCI pat xs = false) :
    noOccIn pat xs [] := by
  intro i hi
  have := (hasCI_false_iff pat xs).mp hxs i
  simpa using this

/-- No occurrence of the `title:` label inside the text from the
`THEME:` line on. -/
theorem noOcc_title_seg1 {th w b suf : List Char}
    (hthnl : ∀ c ∈ th, c ≠ '\n') (hthT : hasCI titleLabel th = false)
    (hwT : hasCI titleLabel w = false) (hbT : hasCI titleLabel b = false)
    (hsuf : suf = [] ∨ suf = segNL ++ (segNL ++ ruleL)) :
    noOccIn titleLabel (seg1 th w b suf) [] := by
  unfold seg1 seg2 seg3
  refine noOccIn_append (noOccIn_inner (by decide) _) ?_
  refine noOccIn_append (noOccIn_sandwich (by decide) hthT) ?_
  refine noOccIn_append (noOccIn_headMismatch (by decide)) ?_
  refine noOccIn_append (noOccIn_inner (by decide) _) ?_
  refine noOccIn_append (noOccIn_sandwich (by decide) hwT) ?_
  refine noOccIn_append (noOccIn_headMismatch (by decide)) ?_
  refine noOccIn_append (ruleL_headMismatch (by decide) _) ?_
  refine noOccIn_append (noOccIn_headMismatch (by decide)) ?_
  refine noOccIn_append (noOccIn_headMismatch (by decide)) ?_
  rcases hsuf with rfl | rfl
  · rw [List.append_nil]
    exact noOccIn_last hbT
  · refine noOccIn_append (noOccIn_sandwich (by decide) hbT) ?_
    refine noOccIn_append (noOccIn_headMismatch (by decide)) ?_
    refine noOccIn_append (noOccIn_headMismatch (by decide)) ?_
    exact ruleL_headMismatch (by decide) _

/-- No occurrence of the `theme:` label inside the text from the
`WORD COUNT:` line on. -/
theorem noOcc_theme_seg2 {w b suf : List Char}
    (hwH : hasCI themeLabel w = false) (hbH : hasCI themeLabel b = false)
    (hsuf : suf = [] ∨ suf = segNL ++ (segNL ++ ruleL)) :
    noOccIn themeLabel (seg2 w b suf) [] := by
  unfold seg2 seg3
  refine noOccIn_append (noOccIn_inner (by decide) _) ?_
  refine noOccIn_append (noOccIn_sandwich (by decide) hwH) ?_
  refine noOccIn_append (noOccIn_headMismatch (by decide)) ?_
  refine noOccIn_append (ruleL_headMismatch (by decide) _) ?_
  refine noOccIn_append (noOccIn_headMismatch (by decide)) ?_
  refine noOccIn_append (noOccIn_headMismatch (by decide)) ?_
  rcases hsuf with rfl | rfl
  · rw [List.append_nil]
    exact noOccIn_last hbH
  · refine noOccIn_append (noOccIn_sandwich (by decide) hbH) ?_
    refine noOccIn_append (noOccIn_headMismatch (by decide)) ?_
    refine noOccIn_append (noOccIn_headMismatch (by decide)) ?_
    exact ruleL_headMismatch (by decide) _

/-- No occurrence of the `word count:` label inside the text from the
rule line on. -/
theorem noOcc_wc_seg3 {b suf : List Char}
    (hbWC : hasCI wcLabel b = false)
    (hsuf : suf = [] ∨ suf = segNL ++ (segNL ++ ruleL)) :
    noOccIn wcLabel (seg3 b suf) [] := by
  unfold seg3
  refine noOccIn_append (ruleL_headMismatch (by decide) _) ?_
  refine noOccIn_append (noOccIn_headMismatch (by decide)) ?_
  refine noOccIn_append (noOccIn_headMismatch (by decide)) ?_
  rcases hsuf with rfl | rfl
  · rw [List.append_nil]
    exact noOccIn_last hbWC
  · refine noOccIn_append (noOccIn_sandwich (by decide) hbWC) ?_
    refine noOccIn_append (noOccIn_headMismatch (by decide)) ?_
    refine noOccIn_append (noOccIn_headMismatch (by decide)) ?_
    exact ruleL_headMismatch (by decide) _

/-- Removing the `TITLE:` line from a block span leaves the `THEME:`
line onwards. -/
theorem subTitle_core {t th w b suf : List Char}
    (htnl : ∀ c ∈ t, c ≠ '\n')
    (hthnl : ∀ c ∈ th, c ≠ '\n') (hthT : hasCI titleLabel th = false)
    (hwT : hasCI titleLabel w = false) (hbT : hasCI titleLabel b = false)
    (hsuf : suf = [] ∨ suf = segNL ++ (segNL ++ ruleL)) :
    subLabelLine titleLabel (coreC t th w b suf) = seg1 th w b suf := by
  have hmatch : matchLabelLine titleLabel (coreC t th w b suf) = some (seg1 th w b suf) := by
    unfold matchLabelLine coreC
    rw [dropCI_tagT]
    have : dropToNewline ((' ' :: t) ++ '\n' :: seg1 th w b suf) = some (seg1 th w b suf) :=
      dropToNewline_concat (fun c hc => by
        rcases (by simpa using hc : c = ' ' ∨ c ∈ t) with rfl | hm
        · decide
        · exact htnl c hm)
    exact this
  rw [subLabelLine_match hmatch]
  exact subLabelLine_all_none (noOcc_title_seg1 hthnl hthT hwT hbT hsuf)

/-- Removing the `THEME:` line next leaves the `WORD COUNT:` line
onwards. -/
theorem subTheme_core {th w b suf : List Char}
    (hthnl : ∀ c ∈ th, c ≠ '\n')
    (hwH : hasCI themeLabel w = false) (hbH : hasCI themeLabel b = false)
    (hsuf : suf = [] ∨ suf = segNL ++ (segNL ++ ruleL)) :
    subLabelLine themeLabel (seg1 th w b suf) = seg2 w b suf := by
  have hmatch : matchLabelLine themeLabel (seg1 th w b suf) = some (seg2 w b suf) := by
    unfold matchLabelLine seg1
    rw [dropCI_tagH]
    have : dropToNewline ((' ' :: th) ++ '\n' :: seg2 w b suf) = some (seg2 w b suf) :=
      dropToNewline_concat (fun c hc => by
        rcases (by simpa using hc : c = ' ' ∨ c ∈ th) with rfl | hm
        · decide
        · exact hthnl c hm)
    exact this
  rw [subLabelLine_match hmatch]
  exact subLabelLine_all_none (noOcc_theme_seg2 hwH hbH hsuf)

/-- Removing the `WORD COUNT:` line last leaves the rule line
onwards. -/
theorem subWc_core {w b suf : List Char}
    (hwnl : ∀ c ∈ w, c ≠ '\n')
    (hbWC : hasCI wcLabel b = false)
    (hsuf : suf = [] ∨ suf = segNL ++ (segNL ++ ruleL)) :
    subLabelLine wcLabel (seg2 w b suf) = seg3 b suf := by
  have hmatch : matchLabelLine wcLabel (seg2 w b suf) = some (seg3 b suf) := by
    unfold matchLabelLine seg2
    rw [dropCI_tagW]
    have : dropToNewline ((' ' :: w) ++ '\n' :: seg3 b suf) = some (seg3 b suf) :=
      dropToNewline_concat (fun c hc => by
        rcases (by simpa using hc : c = ' ' ∨ c ∈ w) with rfl | hm
        · decide
        · exact hwnl c hm)
    exact this
  rw [subLabelLine_match hmatch]
  exact subLabelLine_all_none (noOcc_wc_seg3 hbWC hsuf)

/-- The `TITLE:` field search on a block span captures exactly the
title. -/
theorem searchTitle_core {t th w b suf : List Char}
    (htne : t ≠ []) (hthd : ∀ c, t.head? = some c → isSpaceCh c = false)
    (htnl : ∀ c ∈ t, c ≠ '\n') (htH : hasCI themeLabel t = false) :
    searchField titleLabel titleTerm (coreC t th w b suf) = some t := by
  unfold coreC
  refine searchField_hit (dropCI_tagT _) ?_
  refine tryField_std htne hthd htnl ?_ ?_
  · exact titleTerm_mid htnl htH
  · simp [titleTerm]

/-- The `THEME:` field search on a block span captures exactly the
theme. -/
theorem searchTheme_core {t th w b suf : List Char}
    (htnl : ∀ c ∈ t, c ≠ '\n') (htH : hasCI themeLabel t = false)
    (hthne : th ≠ []) (hthhd : ∀ c, th.head? = some c → isSpaceCh c = false)
    (hthnl : ∀ c ∈ th, c ≠ '\n') (htheq : ∀ c ∈ th, c ≠ '═')
    (hthW : hasCI wordWord th = false) :
    searchField themeLabel themeTerm (coreC t th w b suf) = some th := by
  unfold coreC
  rw [searchField_skip themeTerm (noOccIn_inner (by decide) _)]
  have h2 : searchField themeLabel themeTerm (t ++ (segNL ++ seg1 th w b suf)) =
      searchField themeLabel themeTerm (segNL ++ seg1 th w b suf) :=
    searchField_skip themeTerm (noOccIn_sandwich (by decide) htH)
  rw [h2]
  have h3 : searchField themeLabel themeTerm (segNL ++ seg1 th w b suf) =
      searchField themeLabel themeTerm (seg1 th w b suf) :=
    searchField_skip themeTerm (noOccIn_headMismatch (by decide))
  rw [h3]
  unfold seg1
  refine searchField_hit (dropCI_tagH _) ?_
  refine tryField_std hthne hthhd hthnl ?_ ?_
  · exact themeTerm_mid hthnl htheq hthW
  · simp [themeTerm]

theorem ne_nil_len {l : List Char} (h : 0 < l.length) : l ≠ [] := by
  intro hcon
  rw [hcon] at h
  simp at h

/-- The record produced by `parse_scripts` for one well-formed block:
the parsed title, theme and content are exactly the embedded field
texts and body — the label lines and rule glyphs are gone. -/
theorem mkRecord_std (d : Char) (t th w b suf : List Char)
    (ht : fieldOkB t = true) (hth : fieldOkB th = true) (hwf : fieldOkB w = true)
    (hb : bodyOkB b = true)
    (hsuf : suf = [] ∨ suf = segNL ++ (segNL ++ ruleL)) :
    mkRecord [d] (partBody t th w b suf) =
      { number := natOfDigits [d], title := t.asString, theme := th.asString,
        content := b.asString, word_count := pyWordCount b } := by
  obtain ⟨htne, hthd, htlast, htnl, hteq, htS, htT, htH, htW⟩ := fieldOk_spec ht
  obtain ⟨hthne, hthhd, hthlast, hthnl, htheq, hthS, hthT, hthH, hthW⟩ := fieldOk_spec hth
  obtain ⟨hwne, hwhd, hwlast, hwnl, hweq, hwS, hwT, hwH, hwW⟩ := fieldOk_spec hwf
  obtain ⟨hbne, hbhd, hblast, hbeq, hbS, hbT, hbH, hbWC⟩ := bodyOk_spec hb
  have hlast_bsuf : ∀ c, (b ++ suf).getLast? = some c → isSpaceCh c = false := by
    rcases hsuf with rfl | rfl
    · intro c hc
      rw [List.append_nil] at hc
      exact hblast c hc
    · intro c hc
      rw [getLast?_append_right (by simp [segNL])] at hc
      have he : (segNL ++ (segNL ++ ruleL)).getLast? = some '═' := by decide
      rw [he] at hc
      injection hc with hc
      rw [← hc]
      decide
  have hcore_last : ∀ c, (coreC t th w b suf).getLast? = some c → isSpaceCh c = false := by
    intro c hc
    unfold coreC seg1 seg2 seg3 at hc
    rw [getLast?_append_right (by simp [htne]),
        getLast?_append_right (by simp [segNL]),
        getLast?_append_right (by simp [tagH]),
        getLast?_append_right (by simp [hthne]),
        getLast?_append_right (by simp [segNL]),
        getLast?_append_right (by simp [tagW]),
        getLast?_append_right (by simp [hwne]),
        getLast?_append_right (by simp [segNL]),
        getLast?_append_right (by simp [ruleL]),
        getLast?_append_right (by simp [segNL]),
        getLast?_append_right (by simp [segNL]),
        getLast?_append_right (by simp [hbne])] at hc
    exact hlast_bsuf c hc
  have hcontent : pyStrip (partBody t th w b suf) = coreC t th w b suf := by
    unfold partBody
    have hhd : ∀ c, (coreC t th w b suf).head? = some c → isSpaceCh c = false := by
      intro c hc
      have he : (coreC t th w b suf).head? = some 'T' := rfl
      rw [he] at hc
      injection hc with hc
      rw [← hc]
      decide
    have hne2 : coreC t th w b suf ≠ [] := by
      intro hcon
      have he := congrArg List.head? hcon
      rw [show (coreC t th w b suf).head? = some 'T' from rfl] at he
      simp at he
    exact pyStrip_sandwich (by decide) (by decide) hne2 hhd hcore_last
  have hTitle : searchField titleLabel titleTerm (coreC t th w b suf) = some t :=
    searchTitle_core htne hthd htnl htH
  have hTheme : searchField themeLabel themeTerm (coreC t th w b suf) = some th :=
    searchTheme_core htnl htH hthne hthhd hthnl htheq hthW
  have hsub1 : subLabelLine titleLabel (coreC t th w b suf) = seg1 th w b suf :=
    subTitle_core htnl hthnl hthT hwT hbT hsuf
  have hsub2 : subLabelLine themeLabel (seg1 th w b suf) = seg2 w b suf :=
    subTheme_core hthnl hwH hbH hsuf
  have hsub3 : subLabelLine wcLabel (seg2 w b suf) = seg3 b suf :=
    subWc_core hwnl hbWC hsuf
  have hbf : b.filter (fun c => c ≠ '═') = b :=
    List.filter_eq_self.mpr fun a ha => by simpa using hbeq a ha
  have hrf : ruleL.filter (fun c => c ≠ '═') = [] := by decide
  have hnf : segNL.filter (fun c => c ≠ '═') = ['\n'] := by decide
  have hfil : (seg3 b suf).filter (fun c => c ≠ '═') =
      ['\n'] ++ (['\n'] ++ (b ++ suf.filter (fun c => c ≠ '═'))) := by
    unfold seg3
    rw [List.filter_append, List.filter_append, List.filter_append, List.filter_append]
    rw [hbf, hrf, hnf]
    simp
  have hsufF : suf.filter (fun c => c ≠ '═') = [] ∨
      suf.filter (fun c => c ≠ '═') = ['\n', '\n'] := by
    rcases hsuf with rfl | rfl
    · left; rfl
    · right; decide
  have hclean : pyStrip ((seg3 b suf).filter (fun c => c ≠ '═')) = b := by
    rw [hfil]
    rcases hsufF with he | he
    · rw [he]
      exact @pyStrip_sandwich ['\n', '\n'] b [] (by decide) (by decide) hbne hbhd hblast
    · rw [he]
      exact @pyStrip_sandwich ['\n', '\n'] b ['\n', '\n'] (by decide) (by decide) hbne hbhd hblast
  have hpt : pyStrip t = t := pyStrip_eq_self htne hthd htlast
  have hpth : pyStrip th = th := pyStrip_eq_self hthne hthhd hthlast
  unfold mkRecord
  simp only [hcontent, hTitle, hTheme, hsub1, hsub2, hsub3, hclean, hpt, hpth]

theorem data_asString (l : List Char) : (List.asString l).data = l := rfl

theorem asString_data (s : String) : s.data.asString = s := rfl

/-- No `SCRIPT\s+\d+` match starts inside the span of a well-formed
block (whatever follows it). -/
theorem noOccScript_part {t th w b suf : List Char}
    (htS : hasCI scriptWord t = false) (hthS : hasCI scriptWord th = false)
    (hwS : hasCI scriptWord w = false) (hbS : hasCI scriptWord b = false)
    (hsuf : suf = [] ∨ suf = segNL ++ (segNL ++ ruleL)) (ys : List Char) :
    noOccIn scriptWord (partBody t th w b suf) ys := by
  unfold partBody coreC seg1 seg2 seg3
  refine noOccIn_append (noOccIn_headMismatch (by decide)) ?_
  refine noOccIn_append ?_ (noOccIn_headMismatch (by decide))
  refine noOccIn_append (noOccIn_headMismatch (by decide)) ?_
  refine noOccIn_append (noOccIn_sandwich (by decide) htS) ?_
  refine noOccIn_append (noOccIn_headMismatch (by decide)) ?_
  refine noOccIn_append (noOccIn_headMismatch (by decide)) ?_
  refine noOccIn_append (noOccIn_sandwich (by decide) hthS) ?_
  refine noOccIn_append (noOccIn_headMismatch (by decide)) ?_
  refine noOccIn_append (noOccIn_headMismatch (by decide)) ?_
  refine noOccIn_append (noOccIn_sandwich (by decide) hwS) ?_
  refine noOccIn_append (noOccIn_headMismatch (by decide)) ?_
  refine noOccIn_append (ruleL_headMismatch (by decide) _) ?_
  refine noOccIn_append (noOccIn_headMismatch (by decide)) ?_
  refine noOccIn_append (noOccIn_headMismatch (by decide)) ?_
  rcases hsuf with rfl | rfl
  · rw [List.append_nil]
    exact noOccIn_sandwich (by decide) hbS
  · refine noOccIn_append (noOccIn_sandwich (by decide) hbS) ?_
    refine noOccIn_append (noOccIn_headMismatch (by decide)) ?_
    refine noOccIn_append (noOccIn_headMismatch (by decide)) ?_
    exact ruleL_headMismatch (by decide) _

/-- The split of the two-block text: part before the first marker, then
the two (group, span) pairs. -/
theorem parse_two (t1 th1 w1 b1 t2 th2 w2 b2 : List Char) (n : Nat)
    (ht1S : hasCI scriptWord t1 = false) (hth1S : hasCI scriptWord th1 = false)
    (hw1S : hasCI scriptWord w1 = false) (hb1S : hasCI scriptWord b1 = false)
    (ht2S : hasCI scriptWord t2 = false) (hth2S : hasCI scriptWord th2 = false)
    (hw2S : hasCI scriptWord w2 = false) (hb2S : hasCI scriptWord b2 = false)
    (hn : 2 ≤ n) :
    parse_scripts ((ruleL ++ (segNL ++ (markSeg '1' ++
      (partBody t1 th1 w1 b1 (segNL ++ (segNL ++ ruleL)) ++
        (markSeg '2' ++ partBody t2 th2 w2 b2 []))))).asString) n =
      [mkRecord ['1'] (partBody t1 th1 w1 b1 (segNL ++ (segNL ++ ruleL))),
       mkRecord ['2'] (partBody t2 th2 w2 b2 [])] := by
  unfold parse_scripts
  simp only [data_asString]
  have hP1occ := noOccScript_part ht1S hth1S hw1S hb1S (Or.inr rfl)
  have hP2occ := noOccScript_part ht2S hth2S hw2S hb2S (Or.inl rfl)
  have hS5 : splitScan (partBody t2 th2 w2 b2 []) = (partBody t2 th2 w2 b2 [], []) :=
    splitScan_all_none fun i hi => by simpa using hP2occ [] i hi
  have hm2 : matchMarker (markSeg '2' ++ partBody t2 th2 w2 b2 []) =
      some (['2'], partBody t2 th2 w2 b2 []) :=
    matchMarker_std (by decide) _ ⟨coreC t2 th2 w2 b2 [] ++ segNL, rfl⟩
  have hS4 : splitScan (markSeg '2' ++ partBody t2 th2 w2 b2 []) =
      ([], [(['2'], partBody t2 th2 w2 b2 [])]) := by
    rw [splitScan_marker hm2]
    rw [hS5]
  have hS3 : splitScan (partBody t1 th1 w1 b1 (segNL ++ (segNL ++ ruleL)) ++
      (markSeg '2' ++ partBody t2 th2 w2 b2 [])) =
      (partBody t1 th1 w1 b1 (segNL ++ (segNL ++ ruleL)),
        [(['2'], partBody t2 th2 w2 b2 [])]) := by
    rw [splitScan_skip (hP1occ _)]
    rw [hS4]
    simp
  have hS2 : splitScan (markSeg '1' ++
      (partBody t1 th1 w1 b1 (segNL ++ (segNL ++ ruleL)) ++
        (markSeg '2' ++ partBody t2 th2 w2 b2 []))) =
      ([], [(['1'], partBody t1 th1 w1 b1 (segNL ++ (segNL ++ ruleL))),
            (['2'], partBody t2 th2 w2 b2 [])]) := by
    have hm1 : matchMarker (markSeg '1' ++
        (partBody t1 th1 w1 b1 (segNL ++ (segNL ++ ruleL)) ++
          (markSeg '2' ++ partBody t2 th2 w2 b2 []))) =
        some (['1'], partBody t1 th1 w1 b1 (segNL ++ (segNL ++ ruleL)) ++
          (markSeg '2' ++ partBody t2 th2 w2 b2 [])) :=
      matchMarker_std (by decide) _
        ⟨(coreC t1 th1 w1 b1 (segNL ++ (segNL ++ ruleL)) ++ segNL) ++
          (markSeg '2' ++ partBody t2 th2 w2 b2 []), rfl⟩
    rw [splitScan_marker hm1]
    rw [hS3]
  have hS1 : splitScan (segNL ++ (markSeg '1' ++
      (partBody t1 th1 w1 b1 (segNL ++ (segNL ++ ruleL)) ++
        (markSeg '2' ++ partBody t2 th2 w2 b2 [])))) =
      (segNL, [(['1'], partBody t1 th1 w1 b1 (segNL ++ (segNL ++ ruleL))),
               (['2'], partBody t2 th2 w2 b2 [])]) := by
    rw [splitScan_skip (noOccIn_headMismatch (by decide))]
    rw [hS2]
    simp
  have hS0 : splitScan (ruleL ++ (segNL ++ (markSeg '1' ++
      (partBody t1 th1 w1 b1 (segNL ++ (segNL ++ ruleL)) ++
        (markSeg '2' ++ partBody t2 th2 w2 b2 []))))) =
      (ruleL ++ segNL,
        [(['1'], partBody t1 th1 w1 b1 (segNL ++ (segNL ++ ruleL))),
         (['2'], partBody t2 th2 w2 b2 [])]) := by
    rw [splitScan_skip (ruleL_headMismatch (by decide) _)]
    rw [hS1]
  rw [hS0]
  simp only [List.map_cons, List.map_nil]
  rw [List.take_of_length_le (by simp; omega)]

/-- Claim C1: on a text holding exactly two well-formed `SCRIPT 1` /
`SCRIPT 2` blocks with `TITLE:`/`THEME:`/`WORD COUNT:` lines,
`parse_scripts` (asked for at least two scripts) returns exactly two
records whose titles and themes equal the embedded field texts and
whose content is exactly the embedded body — the label lines and the
`═` rule glyphs are gone. -/
theorem claim_C1 (t1 th1 w1 b1 t2 th2 w2 b2 : String) (n : Nat)
    (h1 : fieldOkB t1.data = true) (h2 : fieldOkB th1.data = true)
    (h3 : fieldOkB w1.data = true) (h4 : bodyOkB b1.data = true)
    (h5 : fieldOkB t2.data = true) (h6 : fieldOkB th2.data = true)
    (h7 : fieldOkB w2.data = true) (h8 : bodyOkB b2.data = true)
    (hn : 2 ≤ n) :
    parse_scripts (twoScriptText t1 th1 w1 b1 t2 th2 w2 b2) n =
      [{ number := 1, title := t1, theme := th1, content := b1,
         word_count := pyWordCount b1.data },
       { number := 2, title := t2, theme := th2, content := b2,
         word_count := pyWordCount b2.data }] := by
  unfold twoScriptText
  rw [parse_two t1.data th1.data w1.data b1.data t2.data th2.data w2.data b2.data n
    (fieldOk_spec h1).2.2.2.2.2.1 (fieldOk_spec h2).2.2.2.2.2.1
    (fieldOk_spec h3).2.2.2.2.2.1 (bodyOk_spec h4).2.2.2.2.1
    (fieldOk_spec h5).2.2.2.2.2.1 (fieldOk_spec h6).2.2.2.2.2.1
    (fieldOk_spec h7).2.2.2.2.2.1 (bodyOk_spec h8).2.2.2.2.1 hn]
  rw [mkRecord_std '1' t1.data th1.data w1.data b1.data (segNL ++ (segNL ++ ruleL))
    h1 h2 h3 h4 (Or.inr rfl)]
  rw [mkRecord_std '2' t2.data th2.data w2.data b2.data [] h5 h6 h7 h8 (Or.inl rfl)]
  have e1 : natOfDigits ['1'] = 1 := by decide
  have e2 : natOfDigits ['2'] = 2 := by decide
  simp only [asString_data, e1, e2]

/-- Witness for claim C1: two concrete well-formed blocks parse into
exactly the embedded records. -/
theorem claim_C1_witness :
    parse_scripts (twoScriptText "Political Earthquake In Delhi" "Supreme Court Drama" "487"
      "Guys rukk jao! Aaj bohot bada dhamaka hua hai." "Economy Boom Shock"
      "Economic Growth And Trade" "512"
      "Doston aaj economy ki baat karte hain. GDP growth badh gayi!") 2 =
      [{ number := 1, title := "Political Earthquake In Delhi",
         theme := "Supreme Court Drama",
         content := "Guys rukk jao! Aaj bohot bada dhamaka hua hai.",
         word_count := pyWordCount "Guys rukk jao! Aaj bohot bada dhamaka hua hai.".data },
       { number := 2, title := "Economy Boom Shock",
         theme := "Economic Growth And Trade",
         content := "Doston aaj economy ki baat karte hain. GDP growth badh gayi!",
         word_count :=
           pyWordCount "Doston aaj economy ki baat karte hain. GDP growth badh gayi!".data }] :=
  claim_C1 _ _ _ _ _ _ _ _ 2 (by decide) (by decide) (by decide) (by decide)
    (by decide) (by decide) (by decide) (by decide) (by omega)
